import Mathlib

set_option maxRecDepth 40000

/-
Shallow embedding of the clang-cpg graph-construction engine
(src/types.rs, src/utils.rs, src/processors.rs, src/processors_ext.rs,
src/graph_builder.rs, driver in src/main.rs).

Nodes and edges are stored in insertion order; a node's index is its
position in the node list, matching petgraph's `DiGraph` index assignment
for a graph from which nothing is ever removed.  `outEdges` models
petgraph's `Graph::edges(i)` for a directed graph, which walks the
per-node linked list of outgoing edges in reverse insertion order.

The clang front-end interface is modelled by the `Entity` tree: kind,
optional name, optional type (with optional result-type display for
function types), optional USR, optional source location, optional display
name (used by the analyzer to recognise the "=", "*" and "&" operator
tokens), ordered children, arguments (the code always consumes
`get_arguments()` through `unwrap_or_default()`, so the list is stored
directly), and the optional referenced entity of a call expression.

Rust panics (`Option::unwrap` on a missing type in
`process_variable_decl` and on a missing parameter type in
`process_function`) are modelled by `Option`-returning processors:
`none` is an abort of the analysis that is not one of the driver's three
context-wrapped fatal errors.  General recursion over the entity tree is
modelled with an explicit fuel parameter; running out of fuel leaves the
state unchanged, so every preservation theorem quantified over all fuel
values covers in particular the fuel large enough to reproduce a real
run.
-/

/-- Node kinds of the property graph (src/types.rs, enum NodeType). -/
inductive NodeType where
  | Function
  | Main
  | Parameter
  | BufferParameter
  | Variable
  | Pointer
  | Array
  | Call
  | UnsafeCall
  | BasicBlock
  | IfStatement
  | ForLoop
  | WhileLoop
  | Assignment
  | MemoryOp
  | Dereference
  | AddressOf
  | Cast
  | StructAccess
  | ArrayAccess
deriving DecidableEq

/-- Edge kinds of the property graph (src/types.rs, enum EdgeType). -/
inductive EdgeType where
  | Contains
  | Calls
  | Controls
  | Uses
  | References
  | Assigns
  | Points
  | Casts
  | Accesses
  | Allocates
  | Frees
  | Defines
deriving DecidableEq

/-- A graph node (src/types.rs, struct Node). -/
structure Node where
  name : String
  kind : NodeType
  line : Option Nat
  usr : Option String
  type_info : Option String
deriving DecidableEq

/-- A directed edge with its endpoints; petgraph stores the endpoints in
the edge record, src/types.rs's `Edge` carries only the kind. -/
structure GEdge where
  src : Nat
  tgt : Nat
  kind : EdgeType
deriving DecidableEq

/-- The property graph: nodes and edges in insertion order. -/
structure Graph where
  nodes : List Node
  edges : List GEdge
deriving DecidableEq

/-- petgraph `add_node`: appends and returns the fresh index. -/
def gAddNode (g : Graph) (n : Node) : Graph × Nat :=
  (⟨g.nodes ++ [n], g.edges⟩, g.nodes.length)

/-- petgraph `add_edge`. -/
def gAddEdge (g : Graph) (s t : Nat) (k : EdgeType) : Graph :=
  ⟨g.nodes, g.edges ++ [⟨s, t, k⟩]⟩

/-- petgraph `graph.edges(i)`: outgoing edges of `i`, most recently
inserted first. -/
def outEdges (g : Graph) (i : Nat) : List GEdge :=
  (g.edges.filter fun e => e.src == i).reverse

/-- Kind of the node at an index, if the index is in range. -/
def nodeKind? (g : Graph) (i : Nat) : Option NodeType :=
  (g.nodes.get? i).map (·.kind)

/-- HashMap<String, NodeIndex> with last-write-wins insert, modelled as an
association list where insertion prepends and lookup takes the first hit. -/
def lookupS (m : List (String × Nat)) (k : String) : Option Nat :=
  (m.find? fun p => p.1 == k).map (·.2)

/-- HashMap<NodeIndex, NodeIndex> lookup (pointer_targets). -/
def lookupN (m : List (Nat × Nat)) (k : Nat) : Option Nat :=
  (m.find? fun p => p.1 == k).map (·.2)

/-- `contains_key` on the name map. -/
def containsKeyS (m : List (String × Nat)) (k : String) : Bool :=
  (lookupS m k).isSome

/-- A source location: file path plus line and column
(`location.get_file_location()`, with the empty path standing for a
location whose file is absent, as produced by `unwrap_or_default`). -/
structure SrcLoc where
  file : String
  line : Nat
  col : Nat
deriving DecidableEq

/-- What the analyzer reads from a clang `Type`: its display name and,
when the type is a function type, the display name of the result type. -/
structure CType where
  display : String
  result : Option String
deriving DecidableEq

/-- The clang entity kinds the analyzer dispatches on; every other kind
falls into `OtherKind` (the catch-all match arms). -/
inductive EntityKind where
  | FunctionDecl
  | VarDecl
  | CallExpr
  | IfStmt
  | ForStmt
  | WhileStmt
  | CompoundStmt
  | DeclStmt
  | BinaryOperator
  | UnaryOperator
  | CompoundAssignOperator
  | CStyleCastExpr
  | DeclRefExpr
  | MemberRefExpr
  | ArraySubscriptExpr
  | IntegerLiteral
  | StringLiteral
  | UnexposedExpr
  | TranslationUnit
  | OtherKind
deriving DecidableEq

/-- A clang AST entity as consumed by the analyzer. -/
inductive Entity where
  | mk (kind : EntityKind) (name : Option String) (ctype : Option CType)
       (usr : Option String) (loc : Option SrcLoc) (displayName : Option String)
       (children : List Entity) (args : List Entity) (ref : Option Entity)

def Entity.kind : Entity → EntityKind
  | .mk k _ _ _ _ _ _ _ _ => k

def Entity.name : Entity → Option String
  | .mk _ n _ _ _ _ _ _ _ => n

def Entity.ctype : Entity → Option CType
  | .mk _ _ t _ _ _ _ _ _ => t

def Entity.usr : Entity → Option String
  | .mk _ _ _ u _ _ _ _ _ => u

def Entity.loc : Entity → Option SrcLoc
  | .mk _ _ _ _ l _ _ _ _ => l

def Entity.displayName : Entity → Option String
  | .mk _ _ _ _ _ d _ _ _ => d

def Entity.children : Entity → List Entity
  | .mk _ _ _ _ _ _ c _ _ => c

def Entity.args : Entity → List Entity
  | .mk _ _ _ _ _ _ _ a _ => a

def Entity.ref : Entity → Option Entity
  | .mk _ _ _ _ _ _ _ _ r => r

/-- Helper for the substring test: does `sub` occur inside `s`? -/
def char_list_infix : List Char → List Char → Bool
  | sub, [] => sub.isEmpty
  | sub, c :: t => sub.isPrefixOf (c :: t) || char_list_infix sub t

/-- Substring test, used for the `path.contains(..)` and
`type.contains(..)` checks of the source. -/
def str_contains (s sub : String) : Bool :=
  char_list_infix sub.data s.data

/-- src/utils.rs `is_system_entity`. -/
def is_system_entity (e : Entity) : Bool :=
  match e.loc with
  | some l =>
      str_contains l.file "/usr/include/" || str_contains l.file "/usr/lib/" ||
        str_contains l.file "/usr/local/include/"
  | none => false

/-- src/utils.rs `is_unsafe_function`. -/
def is_unsafe_function (name : String) : Bool :=
  ["strcpy", "strcat", "sprintf", "gets", "scanf", "vsprintf", "memcpy",
    "memmove", "strncpy", "strncat"].contains name

/-- src/utils.rs `is_standard_library_function`. -/
def is_standard_library_function (name : String) : Bool :=
  ["printf", "sprintf", "fprintf", "snprintf", "vprintf", "vsprintf",
    "vfprintf", "vsnprintf", "scanf", "sscanf", "fscanf", "vscanf",
    "vsscanf", "vfscanf", "malloc", "calloc", "realloc", "aligned_alloc",
    "free", "exit", "abort", "atexit", "_Exit", "system", "getenv",
    "setenv", "putenv", "unsetenv", "time", "clock", "difftime", "mktime",
    "asctime", "ctime", "gmtime", "localtime", "strftime", "rand", "srand",
    "rand_r", "atoi", "atol", "atoll", "strtol", "strtoll", "strtoul",
    "strtoull", "memcpy", "memmove", "memset", "memcmp", "memchr",
    "memccpy", "strlen", "strnlen", "strcpy", "strncpy", "strcat",
    "strncat", "strcmp", "strncmp", "strchr", "strrchr", "strstr",
    "strtok", "fopen", "fclose", "fflush", "fread", "fwrite", "fseek",
    "ftell", "fgetpos", "fsetpos"].contains name

/-- src/utils.rs `get_line_number`. -/
def get_line_number (e : Entity) : Option Nat :=
  e.loc.map (·.line)

/-- The Debug rendering of a clang entity kind, as produced by
`format!("{:?}", entity.get_kind())` in `get_entity_id`. -/
def kind_debug : EntityKind → String
  | .FunctionDecl => "FunctionDecl"
  | .VarDecl => "VarDecl"
  | .CallExpr => "CallExpr"
  | .IfStmt => "IfStmt"
  | .ForStmt => "ForStmt"
  | .WhileStmt => "WhileStmt"
  | .CompoundStmt => "CompoundStmt"
  | .DeclStmt => "DeclStmt"
  | .BinaryOperator => "BinaryOperator"
  | .UnaryOperator => "UnaryOperator"
  | .CompoundAssignOperator => "CompoundAssignOperator"
  | .CStyleCastExpr => "CStyleCastExpr"
  | .DeclRefExpr => "DeclRefExpr"
  | .MemberRefExpr => "MemberRefExpr"
  | .ArraySubscriptExpr => "ArraySubscriptExpr"
  | .IntegerLiteral => "IntegerLiteral"
  | .StringLiteral => "StringLiteral"
  | .UnexposedExpr => "UnexposedExpr"
  | .TranslationUnit => "TranslationUnit"
  | .OtherKind => "Other"

/-- src/utils.rs `get_entity_id`. -/
def get_entity_id (e : Entity) : String :=
  match e.name with
  | some n =>
      match e.loc with
      | some l => n ++ ":" ++ toString l.line ++ ":" ++ toString l.col
      | none => n
  | none => kind_debug e.kind

/-- `format!("{:?}", entity.get_usr())`: the Debug rendering of
`Option<Usr>`.  Note that it is never the empty string — an absent USR
renders as `"None"`. -/
def debug_usr : Option String → String
  | none => "None"
  | some s => "Some(Usr(\"" ++ s ++ "\"))"

/-- The mutable analysis state threaded through the passes: the graph,
`node_map` (by name), `usr_map` (by USR), `pointer_targets`, and the
`processed` entity-id set of `analyze_program`. -/
structure St where
  g : Graph
  node_map : List (String × Nat)
  usr_map : List (String × Nat)
  pointer_targets : List (Nat × Nat)
  processed : List String
deriving DecidableEq

def addNode (st : St) (n : Node) : St × Nat :=
  let p := gAddNode st.g n
  ({ st with g := p.1 }, p.2)

def addEdge (st : St) (s t : Nat) (k : EdgeType) : St :=
  { st with g := gAddEdge st.g s t k }

def nmIns (st : St) (k : String) (v : Nat) : St :=
  { st with node_map := (k, v) :: st.node_map }

def usrIns (st : St) (k : String) (v : Nat) : St :=
  { st with usr_map := (k, v) :: st.usr_map }

def ptIns (st : St) (k v : Nat) : St :=
  { st with pointer_targets := (k, v) :: st.pointer_targets }

def procIns (st : St) (s : String) : St :=
  { st with processed := s :: st.processed }

mutual

/-- src/graph_builder.rs `find_all_functions` (first pass), plus its
recursion over the children list. -/
def find_all_functions : Nat → Entity → St → St
  | 0, _, st => st
  | fuel+1, e, st =>
    if is_system_entity e then st
    else
      match e.kind with
      | .FunctionDecl =>
        match e.name with
        | some name =>
          let usr := debug_usr e.usr
          let return_type := (e.ctype.bind (·.result)).getD "void"
          if ! containsKeyS st.node_map name then
            let node_type := if name == "main" then NodeType.Main else NodeType.Function
            let line := get_line_number e
            let p := addNode st ⟨name, node_type, line, some usr, some return_type⟩
            let st2 := nmIns p.1 name p.2
            if usr != "" then usrIns st2 usr p.2 else st2
          else st
        | none => st
      | _ => find_all_list fuel e.children st

/-- Children loop of `find_all_functions`. -/
def find_all_list : Nat → List Entity → St → St
  | 0, _, st => st
  | _+1, [], st => st
  | fuel+1, c :: cs, st => find_all_list fuel cs (find_all_functions fuel c st)

end

mutual

/-- src/processors_ext.rs `find_variable_refs`. -/
def find_variable_refs : Nat → Entity → Nat → EdgeType → St → St
  | 0, _, _, _, st => st
  | fuel+1, e, parent, et, st =>
    let st1 :=
      if e.kind == .DeclRefExpr then
        match e.name with
        | some vn =>
          match lookupS st.node_map vn with
          | some vi => addEdge st parent vi et
          | none => st
        | none => st
      else st
    find_vr_list fuel e.children parent et st1

/-- Children loop of `find_variable_refs`. -/
def find_vr_list : Nat → List Entity → Nat → EdgeType → St → St
  | 0, _, _, _, st => st
  | _+1, [], _, _, st => st
  | fuel+1, c :: cs, parent, et, st =>
    find_vr_list fuel cs parent et (find_variable_refs fuel c parent et st)

end

/-- src/processors_ext.rs `process_call_argument`: walk the leftmost
spine of the argument until a declaration reference is found. -/
def process_call_argument : Nat → Entity → Nat → St → St
  | 0, _, _, st => st
  | fuel+1, cur, call_idx, st =>
    if cur.kind == .DeclRefExpr then
      match cur.name with
      | some vn =>
        match lookupS st.node_map vn with
        | some vi =>
          let st1 := addEdge st call_idx vi .Uses
          match lookupN st.pointer_targets vi with
          | some ti => addEdge st1 call_idx ti .Uses
          | none => st1
        | none => st
      | none => st
    else
      match cur.children with
      | [] => st
      | c :: _ => process_call_argument fuel c call_idx st

/-- Inner loop of `process_function_pointer_references` over the children
of one argument (non-recursive in the source). -/
def fpr_arg_children : List Entity → Nat → St → St
  | [], _, st => st
  | c :: cs, parent, st =>
    let st1 :=
      if c.kind == .DeclRefExpr then
        match c.name with
        | some n =>
          match lookupS st.node_map n with
          | some i => addEdge st parent i .References
          | none => st
        | none => st
      else st
    fpr_arg_children cs parent st1

mutual

/-- src/processors_ext.rs `process_function_pointer_references`. -/
def process_function_pointer_references : Nat → Entity → Nat → St → St
  | 0, _, _, st => st
  | fuel+1, e, parent, st =>
    match e.kind with
    | .CallExpr => fpr_args fuel e.args parent st
    | _ => fpr_children fuel e.children parent st

/-- Argument loop of `process_function_pointer_references`. -/
def fpr_args : Nat → List Entity → Nat → St → St
  | 0, _, _, st => st
  | _+1, [], _, st => st
  | fuel+1, arg :: rest, parent, st =>
    let st1 :=
      if arg.kind == .DeclRefExpr || arg.kind == .UnexposedExpr then
        let stA :=
          match arg.name with
          | some fn =>
            match lookupS st.node_map fn with
            | some fi => addEdge st parent fi .References
            | none => st
          | none => st
        fpr_arg_children arg.children parent stA
      else st
    fpr_args fuel rest parent st1

/-- Children loop of the catch-all arm of
`process_function_pointer_references`. -/
def fpr_children : Nat → List Entity → Nat → St → St
  | 0, _, _, st => st
  | _+1, [], _, st => st
  | fuel+1, c :: cs, parent, st =>
    fpr_children fuel cs parent (process_function_pointer_references fuel c parent st)

end

/-- src/processors_ext.rs `extract_function_name_from_call`. -/
def extract_function_name_from_call (e : Entity) : Option String :=
  match e.children with
  | [] => none
  | c :: _ => if c.kind == .DeclRefExpr then c.name else none

/-- The callee-name resolution at the top of `process_call_expression`:
the referenced entity's name if a reference exists, otherwise the name
extracted from the first child. -/
def extract_call_name (e : Entity) : Option String :=
  match e.ref with
  | some called => called.name
  | none => extract_function_name_from_call e

/-- Argument loop near the end of `process_call_expression`. -/
def pca_args (fuel : Nat) : List Entity → Nat → St → St
  | [], _, st => st
  | a :: rest, call_idx, st =>
    pca_args fuel rest call_idx (process_call_argument fuel a call_idx st)

/-- The free-pointer handling block of `process_call_expression`
(`// For free(), find the pointer being freed`). -/
def pce_free (e : Entity) (call_idx : Nat) (st : St) : St :=
  match e.args.head? with
  | some arg =>
    if arg.kind == .DeclRefExpr then
      match arg.name with
      | some ptr_name =>
        match lookupS st.node_map ptr_name with
        | some pi => addEdge st call_idx pi .Frees
        | none => st
      | none => st
    else st
  | none => st

/-- The node-building prefix of `process_call_expression`: classify the
call, create the call node, attach it to the parent, resolve and connect
the target function, create the shadow UnsafeCall with its `Controls`
edge for unsafe calls, and handle `free`.  Returns the new state and the
call node's index. -/
def pce_build (function_name : String) (e : Entity) (parent : Nat)
    (memory_tracking : Bool) (st : St) : St × Nat :=
  let unsafeFlag := is_unsafe_function function_name
  let is_memory_op := memory_tracking &&
    (function_name == "malloc" || function_name == "calloc" ||
      function_name == "realloc" || function_name == "free")
  let node_type :=
    if unsafeFlag then NodeType.UnsafeCall
    else if is_memory_op then NodeType.MemoryOp
    else NodeType.Call
  let call_label :=
    if unsafeFlag then "Unsafe: " ++ function_name
    else if is_memory_op then "MemoryOp: " ++ function_name
    else "Call: " ++ function_name
  let usr := e.ref.map (fun c => debug_usr c.usr)
  let p1 := addNode st ⟨call_label, node_type, get_line_number e, usr, none⟩
  let st1 := p1.1
  let call_idx := p1.2
  let st2 := addEdge st1 parent call_idx .Contains
  let func_idx :=
    (match usr with
      | some u => if u != "" then lookupS st.usr_map u else none
      | none => none).orElse (fun _ => lookupS st.node_map function_name)
  let st3 :=
    match func_idx with
    | some fi => addEdge st2 call_idx fi .Calls
    | none => st2
  let st4 :=
    if unsafeFlag then
      let pA := addNode st3 ⟨"Unsafe: " ++ function_name, NodeType.UnsafeCall, none, none, none⟩
      addEdge pA.1 pA.2 call_idx .Controls
    else st3
  let st5 :=
    if is_memory_op && function_name == "free" then pce_free e call_idx st4
    else st4
  (st5, call_idx)

/-- src/processors_ext.rs `process_call_expression`: build the call node
and its immediate edges, then sweep the arguments for `Uses` edges and
function-pointer `References`.  The `usr_map` and `node_map` of the
entering state are read, never written. -/
def process_call_expression (fuel : Nat) (e : Entity) (parent : Nat)
    (memory_tracking : Bool) (st : St) : St :=
  match extract_call_name e with
  | none => st
  | some function_name =>
    let pB := pce_build function_name e parent memory_tracking st
    let st6 := pca_args fuel e.args pB.2 pB.1
    process_function_pointer_references fuel e pB.2 st6

/-- Address-of arm of `process_initializer`: scan the operator's children
for a declaration reference, add a `Points` edge and record the alias. -/
def init_addr_children : List Entity → Nat → St → St
  | [], _, st => st
  | c :: cs, var_idx, st =>
    let st1 :=
      if c.kind == .DeclRefExpr then
        match c.name with
        | some rn =>
          match lookupS st.node_map rn with
          | some ri => ptIns (addEdge st var_idx ri .Points) var_idx ri
          | none => st
        | none => st
      else st
    init_addr_children cs var_idx st1

/-- Argument loop of the call arm of `process_initializer` (one
`process_function_pointer_references` run per argument). -/
def fpr_fold (fuel : Nat) : List Entity → Nat → St → St
  | [], _, st => st
  | a :: rest, p, st => fpr_fold fuel rest p (process_function_pointer_references fuel a p st)

mutual

/-- src/processors.rs `process_initializer`. -/
def process_init : Nat → Entity → Nat → St → St
  | 0, _, _, st => st
  | fuel+1, e, var_idx, st =>
    match e.kind with
    | .CallExpr =>
      let st1 :=
        match e.ref with
        | some called =>
          match called.name with
          | some fn =>
            if fn == "malloc" || fn == "calloc" || fn == "realloc" then
              let pA := addNode st ⟨"MemoryOp: " ++ fn, NodeType.MemoryOp, get_line_number e, none, none⟩
              addEdge pA.1 var_idx pA.2 .Allocates
            else st
          | none => st
        | none => st
      fpr_fold fuel e.args var_idx st1
    | .DeclRefExpr =>
      match e.name with
      | some rn =>
        match lookupS st.node_map rn with
        | some ri =>
          let st1 := addEdge st var_idx ri .Uses
          if nodeKind? st.g ri == some .Pointer || nodeKind? st.g ri == some .BufferParameter then
            ptIns st1 var_idx ri
          else st1
        | none => st
      | none => st
    | .UnaryOperator =>
      if e.displayName == some "&" then init_addr_children e.children var_idx st else st
    | _ => init_children fuel e.children var_idx st

/-- Children loop of the catch-all arm of `process_initializer`. -/
def init_children : Nat → List Entity → Nat → St → St
  | 0, _, _, st => st
  | _+1, [], _, st => st
  | fuel+1, c :: cs, var_idx, st =>
    init_children fuel cs var_idx (process_init fuel c var_idx st)

end

/-- Address-of arm of `process_assignment_value`. -/
def asgn_addr_children : List Entity → Nat → St → St
  | [], _, st => st
  | c :: cs, target_idx, st =>
    let st1 :=
      if c.kind == .DeclRefExpr then
        match c.name with
        | some rn =>
          match lookupS st.node_map rn with
          | some ri => ptIns (addEdge st target_idx ri .Points) target_idx ri
          | none => st
        | none => st
      else st
    asgn_addr_children cs target_idx st1

/-- The allocator-detection block at the top of the call arm of
`process_assignment_value`. -/
def asgn_alloc (e : Entity) (assign_idx target_idx : Nat) (st : St) : St :=
  match e.ref with
  | some called =>
    match called.name with
    | some fn =>
      if fn == "malloc" || fn == "calloc" || fn == "realloc" then
        let pA := addNode st ⟨"MemoryOp: " ++ fn, NodeType.MemoryOp, get_line_number e, none, none⟩
        addEdge (addEdge pA.1 assign_idx pA.2 .Uses) target_idx pA.2 .Allocates
      else st
    | none => st
  | none => st

mutual

/-- src/processors_ext.rs `process_assignment_value`.  The nested
`process_call_expression` runs with a freshly created (empty) `usr_map`
and with memory tracking off, exactly as at the call site in the
source. -/
def process_assignment_value : Nat → Entity → Nat → Nat → St → St
  | 0, _, _, _, st => st
  | fuel+1, e, assign_idx, target_idx, st =>
    match e.kind with
    | .CallExpr =>
      let st1 := asgn_alloc e assign_idx target_idx st
      let st2 := process_call_expression fuel e assign_idx false { st1 with usr_map := [] }
      { st2 with usr_map := st1.usr_map }
    | .DeclRefExpr =>
      match e.name with
      | some rn =>
        match lookupS st.node_map rn with
        | some ri =>
          let st1 := addEdge st assign_idx ri .Uses
          if nodeKind? st.g ri == some .Pointer || nodeKind? st.g ri == some .BufferParameter then
            ptIns st1 target_idx ri
          else st1
        | none => st
      | none => st
    | .UnaryOperator =>
      if e.displayName == some "&" then asgn_addr_children e.children target_idx st else st
    | _ => asgn_children fuel e.children assign_idx target_idx st

/-- Children loop of the catch-all arm of `process_assignment_value`. -/
def asgn_children : Nat → List Entity → Nat → Nat → St → St
  | 0, _, _, _, st => st
  | _+1, [], _, _, st => st
  | fuel+1, c :: cs, assign_idx, target_idx, st =>
    let st1 :=
      if c.kind == .DeclRefExpr then
        match c.name with
        | some rn =>
          match lookupS st.node_map rn with
          | some ri => addEdge st assign_idx ri .Uses
          | none => st
        | none => st
      else process_assignment_value fuel c assign_idx target_idx st
    asgn_children fuel cs assign_idx target_idx st1

end

/-- src/processors.rs `process_variable_decl`.  The outer `Option` is a
panic: the source unwraps `entity.get_type()` for every named
declaration.  The inner option is the function's own `Option<NodeIndex>`
return value. -/
def process_variable_decl (fuel : Nat) (e : Entity) (st : St) : Option (St × Option Nat) :=
  match e.name with
  | none => some (st, none)
  | some name =>
    match e.ctype with
    | none => none
    | some ct =>
      let var_type := ct.display
      let is_buffer := str_contains var_type "char *" || str_contains var_type "char*"
      let is_pointer := str_contains var_type "*"
      let is_array := str_contains var_type "[" && str_contains var_type "]"
      let node_type :=
        if is_buffer then NodeType.BufferParameter
        else if is_pointer then NodeType.Pointer
        else if is_array then NodeType.Array
        else NodeType.Variable
      let var_label :=
        if is_buffer then "BufferParam: " ++ name ++ " (" ++ var_type ++ ")"
        else if is_pointer then "Pointer: " ++ name ++ " (" ++ var_type ++ ")"
        else if is_array then "Array: " ++ name ++ " (" ++ var_type ++ ")"
        else "Var: " ++ name
      let pA := addNode st ⟨var_label, node_type, get_line_number e, none, some var_type⟩
      let st2 := nmIns pA.1 name pA.2
      match e.children.find? (fun c => c.kind == .BinaryOperator || c.kind == .CallExpr ||
          c.kind == .UnaryOperator || c.kind == .IntegerLiteral ||
          c.kind == .StringLiteral || c.kind == .DeclRefExpr) with
      | some init => some (process_init fuel init pA.2 st2, some pA.2)
      | none => some (st2, some pA.2)

/-- Parameter loop of src/processors.rs `process_function`.  `none` is
the panic of `param.get_type().unwrap()` on a named parameter without
type information. -/
def process_params : List Entity → String → Nat → St → Option St
  | [], _, _, st => some st
  | p :: ps, fname, fidx, st =>
    match p.name with
    | some pname =>
      match p.ctype with
      | none => none
      | some ct =>
        let param_type := ct.display
        let is_buffer := str_contains param_type "char *" || str_contains param_type "char*"
        let is_pointer := str_contains param_type "*"
        let node_type :=
          if is_buffer then NodeType.BufferParameter
          else if is_pointer then NodeType.Pointer
          else NodeType.Parameter
        let param_label :=
          if is_buffer then "BufferParam: " ++ pname ++ " (" ++ param_type ++ ")"
          else if is_pointer then "Pointer: " ++ pname ++ " (" ++ param_type ++ ")"
          else "Param: " ++ pname ++ " (" ++ param_type ++ ")"
        let pA := addNode st ⟨param_label, node_type, get_line_number p, none, some param_type⟩
        let st2 := addEdge pA.1 fidx pA.2 .Contains
        let st3 := nmIns (nmIns st2 (fname ++ "_" ++ pname) pA.2) pname pA.2
        process_params ps fname fidx st3
    | none => process_params ps fname fidx st

/-- Condition sweep shared by `process_if_statement` (on the children of
the first condition-shaped child) and `process_loop`: a `Uses` edge per
declaration-reference child. -/
def uses_sweep : List Entity → Nat → St → St
  | [], _, st => st
  | c :: cs, p, st =>
    let st1 :=
      if c.kind == .DeclRefExpr then
        match c.name with
        | some vn =>
          match lookupS st.node_map vn with
          | some vi => addEdge st p vi .Uses
          | none => st
        | none => st
      else st
    uses_sweep cs p st1

/-- Outer condition loop of `process_loop`: every child that is a binary
operator, unary operator or declaration reference gets its own
`uses_sweep` over its children. -/
def loop_cond_sweep : List Entity → Nat → St → St
  | [], _, st => st
  | c :: cs, p, st =>
    let st1 :=
      if c.kind == .BinaryOperator || c.kind == .UnaryOperator || c.kind == .DeclRefExpr then
        uses_sweep c.children p st
      else st
    loop_cond_sweep cs p st1

/-- The loop node's display name (the `match loop_type` at the top of
`process_loop`). -/
def loop_name_of : NodeType → String
  | .ForLoop => "For loop"
  | .WhileLoop => "While loop"
  | _ => "Loop"

mutual

/-- src/processors.rs `process_statement`. -/
def process_statement : Nat → Entity → Nat → Bool → St → Option St
  | 0, _, _, _, st => some st
  | fuel+1, e, parent, mt, st =>
    match e.kind with
    | .CallExpr => some (process_call_expression fuel e parent mt st)
    | .DeclStmt => decl_stmt_children fuel e.children parent st
    | .BinaryOperator => process_binary_operator fuel e parent st
    | .UnaryOperator => process_unary_operator fuel e parent st
    | .CompoundAssignOperator => process_binary_operator fuel e parent st
    | .CStyleCastExpr => process_binary_operator fuel e parent st
    | .IfStmt =>
      match process_if_statement fuel e mt st with
      | none => none
      | some (st1, some idx) => some (addEdge st1 parent idx .Contains)
      | some (st1, none) => some st1
    | .ForStmt =>
      match process_loop fuel e .ForLoop mt st with
      | none => none
      | some (st1, some idx) => some (addEdge st1 parent idx .Contains)
      | some (st1, none) => some st1
    | .WhileStmt =>
      match process_loop fuel e .WhileLoop mt st with
      | none => none
      | some (st1, some idx) => some (addEdge st1 parent idx .Contains)
      | some (st1, none) => some st1
    | .MemberRefExpr => process_member_access fuel e parent st
    | .ArraySubscriptExpr => process_array_access fuel e parent st
    | .CompoundStmt => stmt_list fuel e.children parent mt st
    | .DeclRefExpr =>
      match e.name with
      | some vn =>
        match lookupS st.node_map vn with
        | some vi => some (addEdge st parent vi .Uses)
        | none => some st
      | none => some st
    | _ => stmt_list fuel e.children parent mt st

/-- Statement loop over a list of children with the caller's real maps
(function bodies, compound statements, if/loop bodies, catch-all arm). -/
def stmt_list : Nat → List Entity → Nat → Bool → St → Option St
  | 0, _, _, _, st => some st
  | _+1, [], _, _, st => some st
  | fuel+1, c :: cs, parent, mt, st =>
    match process_statement fuel c parent mt st with
    | none => none
    | some st1 => stmt_list fuel cs parent mt st1

/-- DeclStmt arm of `process_statement`: process each `VarDecl` child and
connect the produced variable node to the parent. -/
def decl_stmt_children : Nat → List Entity → Nat → St → Option St
  | 0, _, _, st => some st
  | _+1, [], _, st => some st
  | fuel+1, c :: cs, parent, st =>
    if c.kind == .VarDecl then
      match process_variable_decl fuel c st with
      | none => none
      | some (st1, some vi) => decl_stmt_children fuel cs parent (addEdge st1 parent vi .Contains)
      | some (st1, none) => decl_stmt_children fuel cs parent st1
    else decl_stmt_children fuel cs parent st

/-- src/processors.rs `process_binary_operator`. -/
def process_binary_operator : Nat → Entity → Nat → St → Option St
  | 0, _, _, st => some st
  | fuel+1, e, parent, st =>
    if e.displayName == some "=" then
      match e.children with
      | lhs :: rhs :: _ =>
        let target_idx :=
          if lhs.kind == .DeclRefExpr then
            match lhs.name with
            | some vn => lookupS st.node_map vn
            | none => none
          else none
        match target_idx with
        | some ti =>
          let pA := addNode st ⟨"Assignment", NodeType.Assignment, get_line_number e, none, none⟩
          let st2 := addEdge (addEdge pA.1 parent pA.2 .Contains) pA.2 ti .Assigns
          some (process_assignment_value fuel rhs pA.2 ti st2)
        | none => some st
      | _ => some st
    else binop_children fuel e.children parent st

/-- Operand loop of the non-assignment arm of `process_binary_operator`:
each child is processed as a statement with a fresh `usr_map`, a fresh
`processed` set and memory tracking off (the source passes
`&mut HashMap::new()`, `&mut HashSet::new()` and `false`). -/
def binop_children : Nat → List Entity → Nat → St → Option St
  | 0, _, _, st => some st
  | _+1, [], _, st => some st
  | fuel+1, c :: cs, parent, st =>
    match process_statement fuel c parent false { st with usr_map := [], processed := [] } with
    | none => none
    | some st1 =>
      binop_children fuel cs parent { st1 with usr_map := st.usr_map, processed := st.processed }

/-- src/processors_ext.rs `process_unary_operator`. -/
def process_unary_operator : Nat → Entity → Nat → St → Option St
  | 0, _, _, st => some st
  | fuel+1, e, parent, st =>
    if e.displayName == some "*" then
      let pA := addNode st ⟨"Dereference", NodeType.Dereference, get_line_number e, none, none⟩
      let st2 := addEdge pA.1 parent pA.2 .Contains
      deref_children fuel e.children pA.2 st2
    else if e.displayName == some "&" then
      let pA := addNode st ⟨"AddressOf", NodeType.AddressOf, get_line_number e, none, none⟩
      let st2 := addEdge pA.1 parent pA.2 .Contains
      addr_children fuel e.children pA.2 st2
    else unary_other_children fuel e.children parent st

/-- Child loop of the dereference arm of `process_unary_operator`. -/
def deref_children : Nat → List Entity → Nat → St → Option St
  | 0, _, _, st => some st
  | _+1, [], _, st => some st
  | fuel+1, c :: cs, deref_idx, st =>
    if c.kind == .DeclRefExpr then
      let st1 :=
        match c.name with
        | some ptr_name =>
          match lookupS st.node_map ptr_name with
          | some pi =>
            let stA := addEdge st deref_idx pi .Uses
            match lookupN st.pointer_targets pi with
            | some ti => addEdge stA deref_idx ti .Accesses
            | none => stA
          | none => st
        | none => st
      deref_children fuel cs deref_idx st1
    else
      match process_statement fuel c deref_idx false { st with usr_map := [], processed := [] } with
      | none => none
      | some st1 =>
        deref_children fuel cs deref_idx { st1 with usr_map := st.usr_map, processed := st.processed }

/-- Child loop of the address-of arm of `process_unary_operator`. -/
def addr_children : Nat → List Entity → Nat → St → Option St
  | 0, _, _, st => some st
  | _+1, [], _, st => some st
  | fuel+1, c :: cs, addr_idx, st =>
    if c.kind == .DeclRefExpr then
      let st1 :=
        match c.name with
        | some vn =>
          match lookupS st.node_map vn with
          | some vi => addEdge st addr_idx vi .Uses
          | none => st
        | none => st
      addr_children fuel cs addr_idx st1
    else
      match process_statement fuel c addr_idx false { st with usr_map := [], processed := [] } with
      | none => none
      | some st1 =>
        addr_children fuel cs addr_idx { st1 with usr_map := st.usr_map, processed := st.processed }

/-- Operand loop of the catch-all arm of `process_unary_operator`. -/
def unary_other_children : Nat → List Entity → Nat → St → Option St
  | 0, _, _, st => some st
  | _+1, [], _, st => some st
  | fuel+1, c :: cs, parent, st =>
    match process_statement fuel c parent false { st with usr_map := [], processed := [] } with
    | none => none
    | some st1 =>
      unary_other_children fuel cs parent { st1 with usr_map := st.usr_map, processed := st.processed }

/-- src/processors_ext.rs `process_member_access`. -/
def process_member_access : Nat → Entity → Nat → St → Option St
  | 0, _, _, st => some st
  | fuel+1, e, parent, st =>
    let member_name := e.name.getD "unknown_member"
    let pA := addNode st ⟨"StructAccess: " ++ member_name, NodeType.StructAccess, get_line_number e, none, none⟩
    let st2 := addEdge pA.1 parent pA.2 .Contains
    member_children fuel e.children pA.2 st2

/-- Child loop of `process_member_access`. -/
def member_children : Nat → List Entity → Nat → St → Option St
  | 0, _, _, st => some st
  | _+1, [], _, st => some st
  | fuel+1, c :: cs, access_idx, st =>
    if c.kind == .DeclRefExpr then
      let st1 :=
        match c.name with
        | some sn =>
          match lookupS st.node_map sn with
          | some si => addEdge st access_idx si .Accesses
          | none => st
        | none => st
      member_children fuel cs access_idx st1
    else
      match process_statement fuel c access_idx false { st with usr_map := [], processed := [] } with
      | none => none
      | some st1 =>
        member_children fuel cs access_idx { st1 with usr_map := st.usr_map, processed := st.processed }

/-- src/processors_ext.rs `process_array_access`. -/
def process_array_access : Nat → Entity → Nat → St → Option St
  | 0, _, _, st => some st
  | fuel+1, e, parent, st =>
    let pA := addNode st ⟨"ArrayAccess", NodeType.ArrayAccess, get_line_number e, none, none⟩
    let st2 := addEdge pA.1 parent pA.2 .Contains
    match e.children with
    | [] => some st2
    | arr :: rest =>
      let st3opt :=
        if arr.kind == .DeclRefExpr then
          some (match arr.name with
            | some an =>
              match lookupS st2.node_map an with
              | some ai => addEdge st2 pA.2 ai .Accesses
              | none => st2
            | none => st2)
        else
          match process_statement fuel arr pA.2 false { st2 with usr_map := [], processed := [] } with
          | none => none
          | some stA => some { stA with usr_map := st2.usr_map, processed := st2.processed }
      match st3opt with
      | none => none
      | some st3 =>
        match rest with
        | [] => some st3
        | idxE :: _ => some (find_variable_refs fuel idxE pA.2 .Uses st3)

/-- src/processors_ext.rs `process_if_statement`. -/
def process_if_statement : Nat → Entity → Bool → St → Option (St × Option Nat)
  | 0, _, _, st => some (st, none)
  | fuel+1, e, mt, st =>
    let pA := addNode st ⟨"If statement", NodeType.IfStatement, get_line_number e, none, none⟩
    let if_idx := pA.2
    let st2 :=
      match e.children.find? (fun c => c.kind == .BinaryOperator ||
          c.kind == .UnaryOperator || c.kind == .DeclRefExpr) with
      | some cond => uses_sweep cond.children if_idx pA.1
      | none => pA.1
    let st3opt :=
      match e.children.find? (fun c => c.kind == .CompoundStmt) with
      | some thenB =>
        let pB := addNode st2 ⟨"BasicBlock: then", NodeType.BasicBlock, get_line_number thenB, none, none⟩
        let stB := addEdge pB.1 if_idx pB.2 .Contains
        stmt_list fuel thenB.children pB.2 mt stB
      | none => some st2
    match st3opt with
    | none => none
    | some st3 =>
      match e.children.get? 2 with
      | some elseB =>
        if elseB.kind == .CompoundStmt then
          let pC := addNode st3 ⟨"BasicBlock: else", NodeType.BasicBlock, get_line_number elseB, none, none⟩
          let stC := addEdge pC.1 if_idx pC.2 .Contains
          match stmt_list fuel elseB.children pC.2 mt stC with
          | none => none
          | some st4 => some (st4, some if_idx)
        else some (st3, some if_idx)
      | none => some (st3, some if_idx)

/-- src/processors_ext.rs `process_loop`. -/
def process_loop : Nat → Entity → NodeType → Bool → St → Option (St × Option Nat)
  | 0, _, _, _, st => some (st, none)
  | fuel+1, e, loop_type, mt, st =>
    let pA := addNode st ⟨loop_name_of loop_type, loop_type, get_line_number e, none, none⟩
    let loop_idx := pA.2
    let st2 := loop_cond_sweep e.children loop_idx pA.1
    match e.children.find? (fun c => c.kind == .CompoundStmt) with
    | some body =>
      let pB := addNode st2 ⟨"BasicBlock: loop body", NodeType.BasicBlock, get_line_number body, none, none⟩
      let stB := addEdge pB.1 loop_idx pB.2 .Contains
      match stmt_list fuel body.children pB.2 mt stB with
      | none => none
      | some st3 => some (st3, some loop_idx)
    | none => some (st2, some loop_idx)

/-- src/processors.rs `process_function`. -/
def process_function : Nat → Entity → Bool → St → Option St
  | 0, _, _, st => some st
  | fuel+1, e, mt, st =>
    match e.name with
    | none => some st
    | some name =>
      let line := get_line_number e
      let return_type := (e.ctype.bind (·.result)).getD "void"
      let p1 :=
        match lookupS st.node_map name with
        | some idx => (st, idx)
        | none =>
          let node_type := if name == "main" then NodeType.Main else NodeType.Function
          let usr := debug_usr e.usr
          let pA := addNode st ⟨name, node_type, line, some usr, some return_type⟩
          let stB := nmIns pA.1 name pA.2
          (if usr != "" then usrIns stB usr pA.2 else stB, pA.2)
      match process_params e.args name p1.2 p1.1 with
      | none => none
      | some st2 =>
        match e.children.find? (fun c => c.kind == .CompoundStmt) with
        | some body =>
          let pB := addNode st2 ⟨"BasicBlock: entry", NodeType.BasicBlock, get_line_number body, none, none⟩
          let st4 := addEdge pB.1 p1.2 pB.2 .Contains
          stmt_list fuel body.children pB.2 mt st4
        | none => some st2

/-- src/graph_builder.rs `analyze_program` (second pass). -/
def analyze_program : Nat → Entity → Bool → St → Option St
  | 0, _, _, st => some st
  | fuel+1, e, mt, st =>
    if is_system_entity e then some st
    else
      let eid := get_entity_id e
      if st.processed.contains eid then some st
      else
        let st0 := procIns st eid
        match e.kind with
        | .FunctionDecl => process_function fuel e mt st0
        | .VarDecl =>
          match process_variable_decl fuel e st0 with
          | none => none
          | some (st1, _) => some st1
        | .IfStmt =>
          match process_if_statement fuel e mt st0 with
          | none => none
          | some (st1, _) => some st1
        | .ForStmt =>
          match process_loop fuel e .ForLoop mt st0 with
          | none => none
          | some (st1, _) => some st1
        | .WhileStmt =>
          match process_loop fuel e .WhileLoop mt st0 with
          | none => none
          | some (st1, _) => some st1
        | _ => analyze_children fuel e.children mt st0

/-- Children loop of the catch-all arm of `analyze_program`. -/
def analyze_children : Nat → List Entity → Bool → St → Option St
  | 0, _, _, st => some st
  | _+1, [], _, st => some st
  | fuel+1, c :: cs, mt, st =>
    match analyze_program fuel c mt st with
    | none => none
    | some st1 => analyze_children fuel cs mt st1

end

unseal process_statement stmt_list process_binary_operator binop_children process_unary_operator deref_children addr_children unary_other_children process_member_access member_children process_array_access process_if_statement process_loop

/-- Label parsing at the top of phase one of `fix_disconnected_calls`:
`"Call: X"` and `"Unsafe: X"` yield `X`, anything else is skipped. -/
def parseCallLabel (s : String) : Option String :=
  if "Call: ".data.isPrefixOf s.data then some (String.mk (s.data.drop 6))
  else if "Unsafe: ".data.isPrefixOf s.data then some (String.mk (s.data.drop 8))
  else none

/-- Whether a node already has an outgoing `Calls` edge. -/
def hasOutgoingCalls (g : Graph) (i : Nat) : Bool :=
  g.edges.any fun e => e.src == i && e.kind == EdgeType.Calls

/-- Phase one of src/graph_builder.rs `fix_disconnected_calls`: scan every
node, collect pending `(call node, function)` edges for unconnected
Call/UnsafeCall nodes whose parsed callee name resolves in `node_map`. -/
def collectPending (g : Graph) (nm : List (String × Nat)) : List (Nat × Nat) :=
  (List.range g.nodes.length).filterMap fun i =>
    match g.nodes.get? i with
    | some node =>
      if node.kind == NodeType.Call || node.kind == NodeType.UnsafeCall then
        match parseCallLabel node.name with
        | some fname =>
          if hasOutgoingCalls g i then none
          else
            match lookupS nm fname with
            | some fi => some (i, fi)
            | none => none
        | none => none
      else none
    | none => none

/-- The `Contains`-children of node `i` that are basic blocks, in the
order petgraph's `edges(i)` yields them. -/
def bb_children (g : Graph) (i : Nat) : List Nat :=
  (outEdges g i).filterMap fun e =>
    if e.kind == EdgeType.Contains then
      match g.nodes.get? e.tgt with
      | some n => if n.kind == NodeType.BasicBlock then some e.tgt else none
      | none => none
    else none

/-- The caller-name → basic-block map built before phase two of
`fix_disconnected_calls`: for every Function/Main node, each of its
basic-block children is inserted under the function's name (a HashMap
insert, so the last insert wins). -/
def build_caller_to_node (g : Graph) : List (String × Nat) :=
  (List.range g.nodes.length).foldl
    (fun m i =>
      match g.nodes.get? i with
      | some node =>
        if node.kind == NodeType.Function || node.kind == NodeType.Main then
          (bb_children g i).foldl (fun m' bb => (node.name, bb) :: m') m
        else m
      | none => m)
    []

/-- The `has_call` check of phase two: some Call/UnsafeCall node for this
callee under the caller's block is already connected to the function. -/
def scan_has_call (g : Graph) (caller_block : Nat) (callee : String) (fi : Nat) : Bool :=
  (outEdges g caller_block).any fun e =>
    e.kind == EdgeType.Contains &&
      (match g.nodes.get? e.tgt with
        | some n =>
          (n.kind == NodeType.Call || n.kind == NodeType.UnsafeCall) &&
            (n.name == "Call: " ++ callee || n.name == "Unsafe: " ++ callee) &&
            (outEdges g e.tgt).any fun ce => ce.kind == EdgeType.Calls && ce.tgt == fi
        | none => false)

/-- One step of phase two of `fix_disconnected_calls` (one extracted
(caller, callee) pair from the source scanner). -/
def fix_scan_step (nm c2n : List (String × Nat)) (g : Graph) (p : String × String) : Graph :=
  if is_standard_library_function p.2 then g
  else
    match lookupS nm p.2, lookupS c2n p.1 with
    | some fi, some caller_block =>
      if scan_has_call g caller_block p.2 fi then g
      else
        let unsafeFlag := is_unsafe_function p.2
        let node_type := if unsafeFlag then NodeType.UnsafeCall else NodeType.Call
        let call_label := if unsafeFlag then "Unsafe: " ++ p.2 else "Call: " ++ p.2
        let pA := gAddNode g ⟨call_label, node_type, none, none, none⟩
        gAddEdge (gAddEdge pA.1 caller_block pA.2 .Contains) pA.2 fi .Calls
    | _, _ => g

/-- The `already_connected` check of phase three: some basic-block child
of the caller contains a node named `Call: pthread_create` that already
has a `References` edge to the handler. -/
def pthread_already_connected (g : Graph) (caller_idx handler_idx : Nat) : Bool :=
  (outEdges g caller_idx).any fun e =>
    e.kind == EdgeType.Contains &&
      (match g.nodes.get? e.tgt with
        | some n =>
          n.kind == NodeType.BasicBlock &&
            (outEdges g e.tgt).any fun be =>
              be.kind == EdgeType.Contains &&
                (match g.nodes.get? be.tgt with
                  | some cn =>
                    cn.name == "Call: pthread_create" &&
                      (outEdges g be.tgt).any fun ce =>
                        ce.kind == EdgeType.References && ce.tgt == handler_idx
                  | none => false)
        | none => false)

/-- One step of phase three of `fix_disconnected_calls` (one
(caller, handler) pair from the pthread scanner). -/
def fix_pthread_step (nm : List (String × Nat)) (g : Graph) (p : String × String) : Graph :=
  match lookupS nm p.1, lookupS nm p.2 with
  | some caller_idx, some handler_idx =>
    if pthread_already_connected g caller_idx handler_idx then g
    else
      match (bb_children g caller_idx).head? with
      | some bb_idx =>
        let pA := gAddNode g ⟨"Call: pthread_create", NodeType.Call, none, none, none⟩
        gAddEdge (gAddEdge pA.1 bb_idx pA.2 .Contains) pA.2 handler_idx .References
      | none => g
  | _, _ => g

/-- src/graph_builder.rs `fix_disconnected_calls` (reconciliation pass):
collect pending AST repairs, inject source-scanner calls, inject
pthread_create references, then add the pending edges. -/
def fix_disconnected_calls (g : Graph) (nm : List (String × Nat))
    (extracted_calls pthread_assignments : List (String × String)) : Graph :=
  let pending := collectPending g nm
  let c2n := build_caller_to_node g
  let g2 := extracted_calls.foldl (fix_scan_step nm c2n) g
  let g3 := pthread_assignments.foldl (fix_pthread_step nm) g2
  pending.foldl (fun g' p => gAddEdge g' p.1 p.2 .Calls) g3

/-- The empty analysis state of a fresh run. -/
def emptySt : St :=
  ⟨⟨[], []⟩, [], [], [], []⟩

/-- The graph-construction portion of src/main.rs `main`: first pass,
second pass, reconciliation.  `extracted_calls` and
`pthread_assignments` are the outputs of the regex source scanner; the
result is `none` when the analysis pass panics. -/
def run_analyzer (fuel : Nat) (root : Entity)
    (extracted_calls pthread_assignments : List (String × String))
    (memory_tracking : Bool) : Option St :=
  let st1 := find_all_functions fuel root emptySt
  match analyze_program fuel root memory_tracking st1 with
  | none => none
  | some st2 =>
    some { st2 with g := fix_disconnected_calls st2.g st2.node_map extracted_calls pthread_assignments }

theorem addEdge_g_nodes (st : St) (s t : Nat) (k : EdgeType) :
    (addEdge st s t k).g.nodes = st.g.nodes := rfl

theorem addEdge_g_edges (st : St) (s t : Nat) (k : EdgeType) :
    (addEdge st s t k).g.edges = st.g.edges ++ [⟨s, t, k⟩] := rfl

theorem addEdge_node_map (st : St) (s t : Nat) (k : EdgeType) :
    (addEdge st s t k).node_map = st.node_map := rfl

theorem addEdge_usr_map (st : St) (s t : Nat) (k : EdgeType) :
    (addEdge st s t k).usr_map = st.usr_map := rfl

theorem addEdge_pointer_targets (st : St) (s t : Nat) (k : EdgeType) :
    (addEdge st s t k).pointer_targets = st.pointer_targets := rfl

theorem addEdge_processed (st : St) (s t : Nat) (k : EdgeType) :
    (addEdge st s t k).processed = st.processed := rfl

theorem addNode_fst_g_nodes (st : St) (n : Node) :
    (addNode st n).1.g.nodes = st.g.nodes ++ [n] := rfl

theorem addNode_fst_g_edges (st : St) (n : Node) :
    (addNode st n).1.g.edges = st.g.edges := rfl

theorem addNode_snd (st : St) (n : Node) :
    (addNode st n).2 = st.g.nodes.length := rfl

theorem addNode_fst_node_map (st : St) (n : Node) :
    (addNode st n).1.node_map = st.node_map := rfl

theorem addNode_fst_usr_map (st : St) (n : Node) :
    (addNode st n).1.usr_map = st.usr_map := rfl

theorem addNode_fst_pointer_targets (st : St) (n : Node) :
    (addNode st n).1.pointer_targets = st.pointer_targets := rfl

theorem addNode_fst_processed (st : St) (n : Node) :
    (addNode st n).1.processed = st.processed := rfl

theorem get?_append_of_lt {α : Type} (l t : List α) (i : Nat) (h : i < l.length) :
    (l ++ t).get? i = l.get? i := by
  simp [List.getElem?_append_left h]

theorem get?_mono {α : Type} {l l' t : List α} {i : Nat} {x : α}
    (hl : l' = l ++ t) (h : l.get? i = some x) : l'.get? i = some x := by
  subst hl
  have hi : i < l.length := by
    by_contra hge
    rw [List.get?_eq_none.mpr (Nat.le_of_not_lt hge)] at h
    exact Option.noConfusion h
  rw [get?_append_of_lt l t i hi]
  exact h

/-- Frame predicate for the leaf sweeps: the graph's nodes and all four
maps are untouched; only edges with kinds from `ks` are appended. -/
def EdgeOnly (ks : List EdgeType) (st st' : St) : Prop :=
  st'.g.nodes = st.g.nodes ∧ st'.node_map = st.node_map ∧ st'.usr_map = st.usr_map ∧
    st'.pointer_targets = st.pointer_targets ∧ st'.processed = st.processed ∧
    ∃ te, st'.g.edges = st.g.edges ++ te ∧ ∀ e ∈ te, e.kind ∈ ks

theorem edgeOnly_refl (ks : List EdgeType) (st : St) : EdgeOnly ks st st :=
  ⟨rfl, rfl, rfl, rfl, rfl, [], by simp⟩

theorem edgeOnly_trans {ks : List EdgeType} {st1 st2 st3 : St}
    (h1 : EdgeOnly ks st1 st2) (h2 : EdgeOnly ks st2 st3) : EdgeOnly ks st1 st3 := by
  obtain ⟨hn1, hm1, hu1, hp1, hq1, te1, he1, hk1⟩ := h1
  obtain ⟨hn2, hm2, hu2, hp2, hq2, te2, he2, hk2⟩ := h2
  refine ⟨hn2.trans hn1, hm2.trans hm1, hu2.trans hu1, hp2.trans hp1, hq2.trans hq1,
    te1 ++ te2, ?_, ?_⟩
  · rw [he2, he1, List.append_assoc]
  · intro e he
    rcases List.mem_append.mp he with h | h
    · exact hk1 e h
    · exact hk2 e h

theorem edgeOnly_addEdge {ks : List EdgeType} {k : EdgeType} (st : St) (s t : Nat)
    (hk : k ∈ ks) : EdgeOnly ks st (addEdge st s t k) :=
  ⟨rfl, rfl, rfl, rfl, rfl, [⟨s, t, k⟩], rfl, by simpa using hk⟩

theorem uses_sweep_edgeOnly (cs : List Entity) (p : Nat) (st : St) :
    EdgeOnly [.Uses] st (uses_sweep cs p st) := by
  induction cs generalizing st with
  | nil => exact edgeOnly_refl _ _
  | cons c cs ih =>
    simp only [uses_sweep]
    split
    · split
      · split
        · exact edgeOnly_trans (edgeOnly_addEdge _ _ _ (by simp)) (ih _)
        · exact ih _
      · exact ih _
    · exact ih _

theorem loop_cond_sweep_edgeOnly (cs : List Entity) (p : Nat) (st : St) :
    EdgeOnly [.Uses] st (loop_cond_sweep cs p st) := by
  induction cs generalizing st with
  | nil => exact edgeOnly_refl _ _
  | cons c cs ih =>
    simp only [loop_cond_sweep]
    split
    · exact edgeOnly_trans (uses_sweep_edgeOnly _ _ _) (ih _)
    · exact ih _

theorem fpr_arg_children_edgeOnly (cs : List Entity) (p : Nat) (st : St) :
    EdgeOnly [.References] st (fpr_arg_children cs p st) := by
  induction cs generalizing st with
  | nil => exact edgeOnly_refl _ _
  | cons c cs ih =>
    simp only [fpr_arg_children]
    split
    · split
      · split
        · exact edgeOnly_trans (edgeOnly_addEdge _ _ _ (by simp)) (ih _)
        · exact ih _
      · exact ih _
    · exact ih _

theorem find_vr_edgeOnly (fuel : Nat) :
    (∀ e parent et st, EdgeOnly [et] st (find_variable_refs fuel e parent et st)) ∧
      (∀ cs parent et st, EdgeOnly [et] st (find_vr_list fuel cs parent et st)) := by
  induction fuel with
  | zero => exact ⟨fun _ _ _ st => edgeOnly_refl _ _, fun _ _ _ st => edgeOnly_refl _ _⟩
  | succ n ih =>
    constructor
    · intro e parent et st
      simp only [find_variable_refs]
      refine edgeOnly_trans ?_ (ih.2 _ _ _ _)
      split
      · split
        · split
          · exact edgeOnly_addEdge _ _ _ (by simp)
          · exact edgeOnly_refl _ _
        · exact edgeOnly_refl _ _
      · exact edgeOnly_refl _ _
    · intro cs parent et st
      match cs with
      | [] => exact edgeOnly_refl _ _
      | c :: cs' =>
        simp only [find_vr_list]
        exact edgeOnly_trans (ih.1 _ _ _ _) (ih.2 _ _ _ _)

theorem process_call_argument_edgeOnly (fuel : Nat) (a : Entity) (ci : Nat) (st : St) :
    EdgeOnly [.Uses] st (process_call_argument fuel a ci st) := by
  induction fuel generalizing a st with
  | zero => exact edgeOnly_refl _ _
  | succ n ih =>
    simp only [process_call_argument]
    split
    · split
      · split
        · split
          · exact edgeOnly_trans (edgeOnly_addEdge _ _ _ (by simp))
              (edgeOnly_addEdge _ _ _ (by simp))
          · exact edgeOnly_addEdge _ _ _ (by simp)
        · exact edgeOnly_refl _ _
      · exact edgeOnly_refl _ _
    · split
      · exact edgeOnly_refl _ _
      · exact ih _ _

theorem pca_args_edgeOnly (fuel : Nat) (args_ : List Entity) (ci : Nat) (st : St) :
    EdgeOnly [.Uses] st (pca_args fuel args_ ci st) := by
  induction args_ generalizing st with
  | nil => exact edgeOnly_refl _ _
  | cons a rest ih =>
    simp only [pca_args]
    exact edgeOnly_trans (process_call_argument_edgeOnly _ _ _ _) (ih _)

theorem fpr_edgeOnly (fuel : Nat) :
    (∀ e parent st, EdgeOnly [.References] st (process_function_pointer_references fuel e parent st)) ∧
      (∀ args_ parent st, EdgeOnly [.References] st (fpr_args fuel args_ parent st)) ∧
        (∀ cs parent st, EdgeOnly [.References] st (fpr_children fuel cs parent st)) := by
  induction fuel with
  | zero =>
    exact ⟨fun _ _ st => edgeOnly_refl _ _, fun _ _ st => edgeOnly_refl _ _,
      fun _ _ st => edgeOnly_refl _ _⟩
  | succ n ih =>
    refine ⟨?_, ?_, ?_⟩
    · intro e parent st
      simp only [process_function_pointer_references]
      split
      · exact ih.2.1 _ _ _
      · exact ih.2.2 _ _ _
    · intro args_ parent st
      match args_ with
      | [] => exact edgeOnly_refl _ _
      | arg :: rest =>
        simp only [fpr_args]
        refine edgeOnly_trans ?_ (ih.2.1 _ _ _)
        split
        · refine edgeOnly_trans ?_ (fpr_arg_children_edgeOnly _ _ _)
          split
          · split
            · exact edgeOnly_addEdge _ _ _ (by simp)
            · exact edgeOnly_refl _ _
          · exact edgeOnly_refl _ _
        · exact edgeOnly_refl _ _
    · intro cs parent st
      match cs with
      | [] => exact edgeOnly_refl _ _
      | c :: cs' =>
        simp only [fpr_children]
        exact edgeOnly_trans (ih.1 _ _ _) (ih.2.2 _ _ _)

theorem fpr_fold_edgeOnly (fuel : Nat) (args_ : List Entity) (p : Nat) (st : St) :
    EdgeOnly [.References] st (fpr_fold fuel args_ p st) := by
  induction args_ generalizing st with
  | nil => exact edgeOnly_refl _ _
  | cons a rest ih =>
    simp only [fpr_fold]
    exact edgeOnly_trans ((fpr_edgeOnly fuel).1 _ _ _) (ih _)

theorem pce_free_edgeOnly (e : Entity) (ci : Nat) (st : St) :
    EdgeOnly [.Frees] st (pce_free e ci st) := by
  simp only [pce_free]
  split
  · split
    · split
      · split
        · exact edgeOnly_addEdge _ _ _ (by simp)
        · exact edgeOnly_refl _ _
      · exact edgeOnly_refl _ _
    · exact edgeOnly_refl _ _
  · exact edgeOnly_refl _ _

/-- The memory-op test of `process_call_expression`. -/
def call_is_memory_op (mt : Bool) (fname : String) : Bool :=
  mt && (fname == "malloc" || fname == "calloc" || fname == "realloc" || fname == "free")

/-- The kind of the node `process_call_expression` creates. -/
def call_node_kind (mt : Bool) (fname : String) : NodeType :=
  if is_unsafe_function fname then .UnsafeCall
  else if call_is_memory_op mt fname then .MemoryOp
  else .Call

/-- The label of the node `process_call_expression` creates. -/
def call_node_label (mt : Bool) (fname : String) : String :=
  if is_unsafe_function fname then "Unsafe: " ++ fname
  else if call_is_memory_op mt fname then "MemoryOp: " ++ fname
  else "Call: " ++ fname

/-- The call node `process_call_expression` creates. -/
def call_node_of (mt : Bool) (fname : String) (e : Entity) : Node :=
  ⟨call_node_label mt fname, call_node_kind mt fname, get_line_number e,
    e.ref.map (fun c => debug_usr c.usr), none⟩

/-- The shadow node created for unsafe calls. -/
def shadow_node_of (fname : String) : Node :=
  ⟨"Unsafe: " ++ fname, .UnsafeCall, none, none, none⟩


/-- The edges `pce_free` appends, as a function of the name map. -/
def pce_free_te (e : Entity) (call_idx : Nat) (nm : List (String × Nat)) : List GEdge :=
  match e.args.head? with
  | some arg =>
    if arg.kind == .DeclRefExpr then
      match arg.name with
      | some ptr_name =>
        match lookupS nm ptr_name with
        | some pi => [⟨call_idx, pi, .Frees⟩]
        | none => []
      | none => []
    else []
  | none => []

theorem pce_free_eq (e : Entity) (ci : Nat) (st : St) :
    pce_free e ci st = { st with g := ⟨st.g.nodes, st.g.edges ++ pce_free_te e ci st.node_map⟩ } := by
  simp only [pce_free, pce_free_te]
  split
  · split
    · split
      · split
        · rfl
        · simp
      · simp
    · simp
  · simp

theorem pce_free_te_kinds (e : Entity) (ci : Nat) (nm : List (String × Nat)) :
    ∀ ed ∈ pce_free_te e ci nm, ed.kind = EdgeType.Frees := by
  simp only [pce_free_te]
  split
  · split
    · split
      · split
        · simp
        · simp
      · simp
    · simp
  · simp

theorem pce_free_te_no_controls (e : Entity) (ci : Nat) (nm : List (String × Nat)) :
    (pce_free_te e ci nm).filter (fun ed => ed.kind == EdgeType.Controls) = [] := by
  simp only [pce_free_te]
  split
  · split
    · split
      · split <;> simp
      · simp
    · simp
  · simp

theorem pce_free_te_no_calls (e : Entity) (ci : Nat) (nm : List (String × Nat)) :
    ∀ ed ∈ pce_free_te e ci nm, ¬ ed.kind = EdgeType.Calls := by
  simp only [pce_free_te]
  split
  · split
    · split
      · split <;> simp
      · simp
    · simp
  · simp

theorem pce_build_shape (fname : String) (e : Entity) (parent : Nat) (mt : Bool) (st : St) :
    (pce_build fname e parent mt st).2 = st.g.nodes.length ∧
    (pce_build fname e parent mt st).1.node_map = st.node_map ∧
    (pce_build fname e parent mt st).1.usr_map = st.usr_map ∧
    (pce_build fname e parent mt st).1.pointer_targets = st.pointer_targets ∧
    (pce_build fname e parent mt st).1.processed = st.processed ∧
    (pce_build fname e parent mt st).1.g.nodes = st.g.nodes ++
      (call_node_of mt fname e ::
        (if is_unsafe_function fname then [shadow_node_of fname] else [])) ∧
    ∃ te, (pce_build fname e parent mt st).1.g.edges = st.g.edges ++ te ∧
      te.filter (fun ed => ed.kind == EdgeType.Controls) =
        (if is_unsafe_function fname then
          [⟨st.g.nodes.length + 1, st.g.nodes.length, .Controls⟩] else []) ∧
      (∀ ed ∈ te, ed.kind = EdgeType.Calls → ed.src = st.g.nodes.length) := by
  by_cases hu : is_unsafe_function fname = true
  · simp only [pce_build, hu, if_true, call_node_of, call_node_label, call_node_kind,
      call_is_memory_op, shadow_node_of, addNode_snd, pce_free_eq]
    split
    · split
      · next vi hvi =>
        constructor
        · exact True.intro
        constructor
        · simp [addEdge_node_map, addNode_fst_node_map]
        constructor
        · simp [addEdge_usr_map, addNode_fst_usr_map]
        constructor
        · simp [addEdge_pointer_targets, addNode_fst_pointer_targets]
        constructor
        · simp [addEdge_processed, addNode_fst_processed]
        constructor
        · simp [addEdge_g_nodes, addNode_fst_g_nodes]
        refine Exists.intro
          ([⟨parent, st.g.nodes.length, EdgeType.Contains⟩,
            ⟨st.g.nodes.length, vi, EdgeType.Calls⟩,
            ⟨st.g.nodes.length + 1, st.g.nodes.length, EdgeType.Controls⟩] ++
            pce_free_te e st.g.nodes.length st.node_map) ?_
        constructor
        · simp [addEdge_g_edges, addEdge_g_nodes, addNode_fst_g_edges, addNode_fst_g_nodes,
            addEdge_node_map, addNode_fst_node_map, List.append_assoc]
        constructor
        · simp [List.filter_append, pce_free_te_no_controls, List.filter_cons]
        · intro ed hed hk
          simp only [List.mem_append, List.mem_cons] at hed
          rcases hed with (h | h | h | h) | h
          · rw [h] at hk; cases hk
          · rw [h]
          · rw [h] at hk; cases hk
          · cases h
          · exact absurd hk (by rw [pce_free_te_kinds _ _ _ ed h]; intro hc; cases hc)
      · constructor
        · exact True.intro
        constructor
        · simp [addEdge_node_map, addNode_fst_node_map]
        constructor
        · simp [addEdge_usr_map, addNode_fst_usr_map]
        constructor
        · simp [addEdge_pointer_targets, addNode_fst_pointer_targets]
        constructor
        · simp [addEdge_processed, addNode_fst_processed]
        constructor
        · simp [addEdge_g_nodes, addNode_fst_g_nodes]
        refine Exists.intro
          ([⟨parent, st.g.nodes.length, EdgeType.Contains⟩,
            ⟨st.g.nodes.length + 1, st.g.nodes.length, EdgeType.Controls⟩] ++
            pce_free_te e st.g.nodes.length st.node_map) ?_
        constructor
        · simp [addEdge_g_edges, addEdge_g_nodes, addNode_fst_g_edges, addNode_fst_g_nodes,
            addEdge_node_map, addNode_fst_node_map, List.append_assoc]
        constructor
        · simp [List.filter_append, pce_free_te_no_controls, List.filter_cons]
        · intro ed hed hk
          simp only [List.mem_append, List.mem_cons] at hed
          rcases hed with (h | h | h) | h
          · rw [h] at hk; cases hk
          · rw [h] at hk; cases hk
          · cases h
          · exact absurd hk (by rw [pce_free_te_kinds _ _ _ ed h]; intro hc; cases hc)
    · split
      · next vi hvi =>
        constructor
        · exact True.intro
        constructor
        · simp [addEdge_node_map, addNode_fst_node_map]
        constructor
        · simp [addEdge_usr_map, addNode_fst_usr_map]
        constructor
        · simp [addEdge_pointer_targets, addNode_fst_pointer_targets]
        constructor
        · simp [addEdge_processed, addNode_fst_processed]
        constructor
        · simp [addEdge_g_nodes, addNode_fst_g_nodes]
        refine Exists.intro
          [⟨parent, st.g.nodes.length, EdgeType.Contains⟩,
            ⟨st.g.nodes.length, vi, EdgeType.Calls⟩,
            ⟨st.g.nodes.length + 1, st.g.nodes.length, EdgeType.Controls⟩] ?_
        constructor
        · simp [addEdge_g_edges, addEdge_g_nodes, addNode_fst_g_edges, addNode_fst_g_nodes,
            List.append_assoc]
        constructor
        · simp [List.filter_cons]
        · intro ed hed hk
          simp only [List.mem_cons] at hed
          rcases hed with h | h | h | h
          · rw [h] at hk; cases hk
          · rw [h]
          · rw [h] at hk; cases hk
          · cases h
      · constructor
        · exact True.intro
        constructor
        · simp [addEdge_node_map, addNode_fst_node_map]
        constructor
        · simp [addEdge_usr_map, addNode_fst_usr_map]
        constructor
        · simp [addEdge_pointer_targets, addNode_fst_pointer_targets]
        constructor
        · simp [addEdge_processed, addNode_fst_processed]
        constructor
        · simp [addEdge_g_nodes, addNode_fst_g_nodes]
        refine Exists.intro
          [⟨parent, st.g.nodes.length, EdgeType.Contains⟩,
            ⟨st.g.nodes.length + 1, st.g.nodes.length, EdgeType.Controls⟩] ?_
        constructor
        · simp [addEdge_g_edges, addEdge_g_nodes, addNode_fst_g_edges, addNode_fst_g_nodes,
            List.append_assoc]
        constructor
        · simp [List.filter_cons]
        · intro ed hed hk
          simp only [List.mem_cons] at hed
          rcases hed with h | h | h
          · rw [h] at hk; cases hk
          · rw [h] at hk; cases hk
          · cases h
  · rw [Bool.not_eq_true] at hu
    simp only [pce_build, hu, Bool.false_eq_true, if_false, call_node_of, call_node_label,
      call_node_kind, call_is_memory_op, addNode_snd, pce_free_eq]
    split
    · split
      · next vi hvi =>
        constructor
        · exact True.intro
        constructor
        · simp [addEdge_node_map, addNode_fst_node_map]
        constructor
        · simp [addEdge_usr_map, addNode_fst_usr_map]
        constructor
        · simp [addEdge_pointer_targets, addNode_fst_pointer_targets]
        constructor
        · simp [addEdge_processed, addNode_fst_processed]
        constructor
        · simp [addEdge_g_nodes, addNode_fst_g_nodes]
        refine Exists.intro
          ([⟨parent, st.g.nodes.length, EdgeType.Contains⟩,
            ⟨st.g.nodes.length, vi, EdgeType.Calls⟩] ++
            pce_free_te e st.g.nodes.length st.node_map) ?_
        constructor
        · simp [addEdge_g_edges, addEdge_g_nodes, addNode_fst_g_edges, addNode_fst_g_nodes,
            addEdge_node_map, addNode_fst_node_map, List.append_assoc]
        constructor
        · simp [List.filter_append, pce_free_te_no_controls, List.filter_cons]
        · intro ed hed hk
          simp only [List.mem_append, List.mem_cons] at hed
          rcases hed with (h | h | h) | h
          · rw [h] at hk; cases hk
          · rw [h]
          · cases h
          · exact absurd hk (by rw [pce_free_te_kinds _ _ _ ed h]; intro hc; cases hc)
      · constructor
        · exact True.intro
        constructor
        · simp [addEdge_node_map, addNode_fst_node_map]
        constructor
        · simp [addEdge_usr_map, addNode_fst_usr_map]
        constructor
        · simp [addEdge_pointer_targets, addNode_fst_pointer_targets]
        constructor
        · simp [addEdge_processed, addNode_fst_processed]
        constructor
        · simp [addEdge_g_nodes, addNode_fst_g_nodes]
        refine Exists.intro
          ([⟨parent, st.g.nodes.length, EdgeType.Contains⟩] ++
            pce_free_te e st.g.nodes.length st.node_map) ?_
        constructor
        · simp [addEdge_g_edges, addEdge_g_nodes, addNode_fst_g_edges, addNode_fst_g_nodes,
            addEdge_node_map, addNode_fst_node_map, List.append_assoc]
        constructor
        · simp [List.filter_append, pce_free_te_no_controls, List.filter_cons]
        · intro ed hed hk
          simp only [List.mem_append, List.mem_cons] at hed
          rcases hed with (h | h) | h
          · rw [h] at hk; cases hk
          · cases h
          · exact absurd hk (by rw [pce_free_te_kinds _ _ _ ed h]; intro hc; cases hc)
    · split
      · next vi hvi =>
        constructor
        · exact True.intro
        constructor
        · simp [addEdge_node_map, addNode_fst_node_map]
        constructor
        · simp [addEdge_usr_map, addNode_fst_usr_map]
        constructor
        · simp [addEdge_pointer_targets, addNode_fst_pointer_targets]
        constructor
        · simp [addEdge_processed, addNode_fst_processed]
        constructor
        · simp [addEdge_g_nodes, addNode_fst_g_nodes]
        refine Exists.intro
          [⟨parent, st.g.nodes.length, EdgeType.Contains⟩,
            ⟨st.g.nodes.length, vi, EdgeType.Calls⟩] ?_
        constructor
        · simp [addEdge_g_edges, addEdge_g_nodes, addNode_fst_g_edges, addNode_fst_g_nodes,
            List.append_assoc]
        constructor
        · simp [List.filter_cons]
        · intro ed hed hk
          simp only [List.mem_cons] at hed
          rcases hed with h | h | h
          · rw [h] at hk; cases hk
          · rw [h]
          · cases h
      · constructor
        · exact True.intro
        constructor
        · simp [addEdge_node_map, addNode_fst_node_map]
        constructor
        · simp [addEdge_usr_map, addNode_fst_usr_map]
        constructor
        · simp [addEdge_pointer_targets, addNode_fst_pointer_targets]
        constructor
        · simp [addEdge_processed, addNode_fst_processed]
        constructor
        · simp [addEdge_g_nodes, addNode_fst_g_nodes]
        refine Exists.intro [⟨parent, st.g.nodes.length, EdgeType.Contains⟩] ?_
        constructor
        · simp [addEdge_g_edges, addEdge_g_nodes, addNode_fst_g_edges, addNode_fst_g_nodes,
            List.append_assoc]
        constructor
        · simp [List.filter_cons]
        · intro ed hed hk
          simp only [List.mem_cons] at hed
          rcases hed with h | h
          · rw [h] at hk; cases hk
          · cases h

theorem filter_kind_nil {t : List GEdge} {ks : List EdgeType} {k : EdgeType}
    (hk : ∀ ed ∈ t, ed.kind ∈ ks) (h0 : k ∉ ks) :
    t.filter (fun ed => ed.kind == k) = [] := by
  rw [List.filter_eq_nil_iff]
  intro ed hed
  simp only [beq_iff_eq]
  intro hc
  exact h0 (hc ▸ hk ed hed)

theorem no_calls_of_kinds {t : List GEdge} {ks : List EdgeType}
    (hk : ∀ ed ∈ t, ed.kind ∈ ks) (h0 : EdgeType.Calls ∉ ks) :
    ∀ ed ∈ t, ¬ ed.kind = EdgeType.Calls := by
  intro ed hed hc
  exact h0 (hc ▸ hk ed hed)

theorem pce_shape (fuel : Nat) (e : Entity) (parent : Nat) (mt : Bool) (st : St)
    (fname : String) (h : extract_call_name e = some fname) :
    (process_call_expression fuel e parent mt st).node_map = st.node_map ∧
    (process_call_expression fuel e parent mt st).usr_map = st.usr_map ∧
    (process_call_expression fuel e parent mt st).pointer_targets = st.pointer_targets ∧
    (process_call_expression fuel e parent mt st).processed = st.processed ∧
    (process_call_expression fuel e parent mt st).g.nodes = st.g.nodes ++
      (call_node_of mt fname e ::
        (if is_unsafe_function fname then [shadow_node_of fname] else [])) ∧
    ∃ te, (process_call_expression fuel e parent mt st).g.edges = st.g.edges ++ te ∧
      te.filter (fun ed => ed.kind == EdgeType.Controls) =
        (if is_unsafe_function fname then
          [⟨st.g.nodes.length + 1, st.g.nodes.length, .Controls⟩] else []) ∧
      (∀ ed ∈ te, ed.kind = EdgeType.Calls → ed.src = st.g.nodes.length) := by
  obtain ⟨hb2, hbm, hbu, hbp, hbq, hbn, tb, hbe, hbf, hbc⟩ :=
    pce_build_shape fname e parent mt st
  obtain ⟨n6, m6, u6, p6, q6, t6, e6, k6⟩ :=
    pca_args_edgeOnly fuel e.args (pce_build fname e parent mt st).2
      (pce_build fname e parent mt st).1
  obtain ⟨n7, m7, u7, p7, q7, t7, e7, k7⟩ :=
    (fpr_edgeOnly fuel).1 e (pce_build fname e parent mt st).2
      (pca_args fuel e.args (pce_build fname e parent mt st).2 (pce_build fname e parent mt st).1)
  simp only [process_call_expression, h]
  refine ⟨by rw [m7, m6, hbm], by rw [u7, u6, hbu], by rw [p7, p6, hbp], by rw [q7, q6, hbq],
    by rw [n7, n6, hbn], tb ++ t6 ++ t7, ?_, ?_, ?_⟩
  · rw [e7, e6, hbe, List.append_assoc, List.append_assoc, List.append_assoc]
  · rw [List.filter_append, List.filter_append, hbf,
      filter_kind_nil k6 (by simp), filter_kind_nil k7 (by simp)]
    split <;> simp
  · intro ed hed hk
    rcases List.mem_append.mp hed with hA | h7m
    · rcases List.mem_append.mp hA with hB | h6m
      · exact hbc ed hB hk
      · exact absurd hk (no_calls_of_kinds k6 (by simp) ed h6m)
    · exact absurd hk (no_calls_of_kinds k7 (by simp) ed h7m)

theorem pce_noname (fuel : Nat) (e : Entity) (parent : Nat) (mt : Bool) (st : St)
    (h : extract_call_name e = none) :
    process_call_expression fuel e parent mt st = st := by
  simp [process_call_expression, h]

/-- The three allocator labels. -/
def allocLabel (s : String) : Prop :=
  s = "MemoryOp: malloc" ∨ s = "MemoryOp: calloc" ∨ s = "MemoryOp: realloc"

/-- A node the second pass may append when memory tracking is off: if it
is a MemoryOp node it carries an allocator label. -/
def memNodeOk (m : Bool) (n : Node) : Prop :=
  m = false → n.kind = NodeType.MemoryOp → allocLabel n.name

/-- An edge appended by the second pass: `Calls` edges start at a
Call/UnsafeCall/MemoryOp node, `Controls` edges connect two fresh
UnsafeCall nodes. -/
def newEdgeOk (base : Nat) (g : Graph) (ed : GEdge) : Prop :=
  (ed.kind = EdgeType.Calls → ∃ n, g.nodes.get? ed.src = some n ∧
    (n.kind = NodeType.Call ∨ n.kind = NodeType.UnsafeCall ∨ n.kind = NodeType.MemoryOp)) ∧
  (ed.kind = EdgeType.Controls → base ≤ ed.src ∧ base ≤ ed.tgt ∧
    (∃ n, g.nodes.get? ed.src = some n ∧ n.kind = NodeType.UnsafeCall) ∧
    (∃ n, g.nodes.get? ed.tgt = some n ∧ n.kind = NodeType.UnsafeCall))

/-- The master preservation relation of the AST analysis pass: nodes and
edges are append-only, appended MemoryOp nodes have allocator labels when
memory tracking is off, and appended `Calls`/`Controls` edges are
well-formed in the sense of `newEdgeOk`. -/
def StExt (m : Bool) (st st' : St) : Prop :=
  (∃ tn, st'.g.nodes = st.g.nodes ++ tn ∧ ∀ n ∈ tn, memNodeOk m n) ∧
  (∃ te, st'.g.edges = st.g.edges ++ te ∧ ∀ ed ∈ te, newEdgeOk st.g.nodes.length st'.g ed)

theorem StExt.refl (m : Bool) (st : St) : StExt m st st :=
  ⟨⟨[], by simp⟩, ⟨[], by simp⟩⟩

theorem newEdgeOk_mono {base base' : Nat} {g g' : Graph} {ed : GEdge}
    (h : newEdgeOk base' g ed) (hb : base ≤ base') (hg : ∃ t, g'.nodes = g.nodes ++ t) :
    newEdgeOk base g' ed := by
  obtain ⟨t, ht⟩ := hg
  obtain ⟨h1, h2⟩ := h
  constructor
  · intro hk
    obtain ⟨n, hn, hkind⟩ := h1 hk
    exact ⟨n, get?_mono ht hn, hkind⟩
  · intro hk
    obtain ⟨hs, htg, ⟨n1, hn1, hk1⟩, ⟨n2, hn2, hk2⟩⟩ := h2 hk
    exact ⟨le_trans hb hs, le_trans hb htg, ⟨n1, get?_mono ht hn1, hk1⟩,
      ⟨n2, get?_mono ht hn2, hk2⟩⟩

theorem StExt.trans {m : Bool} {a b c : St} (h1 : StExt m a b) (h2 : StExt m b c) :
    StExt m a c := by
  obtain ⟨⟨tn1, hn1, hm1⟩, ⟨te1, he1, hk1⟩⟩ := h1
  obtain ⟨⟨tn2, hn2, hm2⟩, ⟨te2, he2, hk2⟩⟩ := h2
  refine ⟨⟨tn1 ++ tn2, by rw [hn2, hn1, List.append_assoc], ?_⟩,
    ⟨te1 ++ te2, by rw [he2, he1, List.append_assoc], ?_⟩⟩
  · intro n hn
    rcases List.mem_append.mp hn with h | h
    · exact hm1 n h
    · exact hm2 n h
  · intro ed hed
    rcases List.mem_append.mp hed with h | h
    · exact newEdgeOk_mono (hk1 ed h) (le_refl _) ⟨tn2, hn2⟩
    · refine newEdgeOk_mono (hk2 ed h) ?_ ⟨[], by simp⟩
      rw [hn1]
      simp

theorem StExt.of_graph_eq {m : Bool} {st st' : St} (h : st'.g = st.g) : StExt m st st' :=
  ⟨⟨[], by rw [h]; simp, by simp⟩, ⟨[], by rw [h]; simp, by simp⟩⟩

theorem StExt.addEdge_plain {m : Bool} (st : St) (s t : Nat) (k : EdgeType)
    (hk : ¬ k = EdgeType.Calls) (hk2 : ¬ k = EdgeType.Controls) :
    StExt m st (addEdge st s t k) := by
  refine ⟨⟨[], by simp [addEdge_g_nodes], by simp⟩,
    ⟨[⟨s, t, k⟩], by simp [addEdge_g_edges], ?_⟩⟩
  intro ed hed
  simp only [List.mem_singleton] at hed
  subst hed
  exact ⟨fun hc => absurd hc hk, fun hc => absurd hc hk2⟩

theorem StExt.addNode_ok {m : Bool} (st : St) (n : Node) (hn : memNodeOk m n) :
    StExt m st (addNode st n).1 := by
  refine ⟨⟨[n], by simp [addNode_fst_g_nodes], ?_⟩, ⟨[], by simp [addNode_fst_g_edges], by simp⟩⟩
  intro n' hn'
  simp only [List.mem_singleton] at hn'
  subst hn'
  exact hn

theorem StExt.of_edgeOnly {m : Bool} {ks : List EdgeType} {st st' : St}
    (h : EdgeOnly ks st st') (hk : EdgeType.Calls ∉ ks) (hk2 : EdgeType.Controls ∉ ks) :
    StExt m st st' := by
  obtain ⟨hn, _, _, _, _, te, he, hke⟩ := h
  refine ⟨⟨[], by simp [hn], by simp⟩, ⟨te, he, ?_⟩⟩
  intro ed hed
  exact ⟨fun hc => absurd (hc ▸ hke ed hed) hk, fun hc => absurd (hc ▸ hke ed hed) hk2⟩

theorem StExt.mono_flag {m : Bool} {st st' : St} (h : StExt false st st') : StExt m st st' := by
  obtain ⟨⟨tn, hn, hm⟩, he⟩ := h
  cases m with
  | false => exact ⟨⟨tn, hn, hm⟩, he⟩
  | true =>
    refine ⟨⟨tn, hn, ?_⟩, he⟩
    intro n hmem hc
    intro hk
    cases hc

theorem StExt.congr_st {m : Bool} {a b a' b' : St} (h : StExt m a b)
    (ha : a'.g = a.g) (hb : b'.g = b.g) : StExt m a' b' := by
  obtain ⟨⟨tn, hn, hm⟩, ⟨te, he, hk⟩⟩ := h
  refine ⟨⟨tn, by rw [ha, hb]; exact hn, hm⟩, ⟨te, by rw [ha, hb]; exact he, ?_⟩⟩
  intro ed hed
  rw [ha, hb]
  exact hk ed hed

theorem pce_stExt (fuel : Nat) (e : Entity) (parent : Nat) (mt : Bool) (st : St) :
    StExt mt st (process_call_expression fuel e parent mt st) := by
  cases h : extract_call_name e with
  | none => rw [pce_noname fuel e parent mt st h]; exact StExt.refl _ _
  | some fname =>
    obtain ⟨_, _, _, _, hn, te, he, hf, hc⟩ := pce_shape fuel e parent mt st fname h
    refine ⟨⟨call_node_of mt fname e ::
      (if is_unsafe_function fname then [shadow_node_of fname] else []), hn, ?_⟩,
      ⟨te, he, ?_⟩⟩
    · intro n hmem hm0 hk
      subst hm0
      simp only [List.mem_cons] at hmem
      rcases hmem with hcall | hsh
      · subst hcall
        simp only [call_node_of, call_node_kind, call_is_memory_op, Bool.false_and] at hk ⊢
        split at hk
        · cases hk
        · simp at hk
      · split at hsh
        · simp only [List.mem_singleton] at hsh
          subst hsh
          simp only [shadow_node_of] at hk
          cases hk
        · cases hsh
    · intro ed hed
      constructor
      · intro hk
        refine ⟨call_node_of mt fname e, ?_, ?_⟩
        · rw [hc ed hed hk, hn]
          rw [List.get?_eq_getElem?, List.getElem?_append_right (le_refl _)]
          simp
        · have := hc ed hed hk
          simp only [call_node_of, call_node_kind]
          split
          · right; left; rfl
          · split
            · right; right; rfl
            · left; rfl
      · intro hk
        have hmem : ed ∈ te.filter (fun x => x.kind == EdgeType.Controls) :=
          List.mem_filter.mpr ⟨hed, by simp [hk]⟩
        rw [hf] at hmem
        split at hmem
        · next hunsafe =>
          simp only [List.mem_singleton] at hmem
          subst hmem
          refine ⟨?_, ?_, ?_, ?_⟩
          · show st.g.nodes.length ≤ st.g.nodes.length + 1
            omega
          · show st.g.nodes.length ≤ st.g.nodes.length
            omega
          · refine ⟨shadow_node_of fname, ?_, rfl⟩
            show (process_call_expression fuel e parent mt st).g.nodes.get?
              (st.g.nodes.length + 1) = some (shadow_node_of fname)
            rw [hn, hunsafe]
            rw [List.get?_eq_getElem?, List.getElem?_append_right (by omega)]
            simp
          · refine ⟨call_node_of mt fname e, ?_, ?_⟩
            · show (process_call_expression fuel e parent mt st).g.nodes.get?
                st.g.nodes.length = some (call_node_of mt fname e)
              rw [hn]
              rw [List.get?_eq_getElem?, List.getElem?_append_right (le_refl _)]
              simp
            · simp [call_node_of, call_node_kind, hunsafe]
        · cases hmem

theorem init_addr_children_stExt (m : Bool) (cs : List Entity) (vi : Nat) (st : St) :
    StExt m st (init_addr_children cs vi st) := by
  induction cs generalizing st with
  | nil => exact StExt.refl _ _
  | cons c cs ih =>
    simp only [init_addr_children]
    refine StExt.trans ?_ (ih _)
    split
    · split
      · split
        · exact StExt.trans (StExt.addEdge_plain _ _ _ _ (by simp) (by simp))
            (StExt.of_graph_eq rfl)
        · exact StExt.refl _ _
      · exact StExt.refl _ _
    · exact StExt.refl _ _

theorem asgn_addr_children_stExt (m : Bool) (cs : List Entity) (ti : Nat) (st : St) :
    StExt m st (asgn_addr_children cs ti st) := by
  induction cs generalizing st with
  | nil => exact StExt.refl _ _
  | cons c cs ih =>
    simp only [asgn_addr_children]
    refine StExt.trans ?_ (ih _)
    split
    · split
      · split
        · exact StExt.trans (StExt.addEdge_plain _ _ _ _ (by simp) (by simp))
            (StExt.of_graph_eq rfl)
        · exact StExt.refl _ _
      · exact StExt.refl _ _
    · exact StExt.refl _ _

theorem alloc_node_ok (m : Bool) (fn : String) (ln : Option Nat)
    (hfn : (fn == "malloc" || fn == "calloc" || fn == "realloc") = true) :
    memNodeOk m (⟨"MemoryOp: " ++ fn, NodeType.MemoryOp, ln, none, none⟩ : Node) := by
  intro _ _
  simp only [Bool.or_eq_true, beq_iff_eq] at hfn
  rcases hfn with (h | h) | h <;> subst h
  · left; rfl
  · right; left; rfl
  · right; right; rfl

theorem process_init_stExt (m : Bool) (fuel : Nat) :
    (∀ e vi st, StExt m st (process_init fuel e vi st)) ∧
      (∀ cs vi st, StExt m st (init_children fuel cs vi st)) := by
  induction fuel with
  | zero => exact ⟨fun _ _ st => StExt.refl _ _, fun _ _ st => StExt.refl _ _⟩
  | succ n ih =>
    constructor
    · intro e vi st
      simp only [process_init]
      split
      · refine StExt.trans ?_
          (StExt.of_edgeOnly (fpr_fold_edgeOnly _ _ _ _) (by simp) (by simp))
        split
        · split
          · split
            · next hfn =>
              exact StExt.trans (StExt.addNode_ok _ _ (alloc_node_ok m _ _ hfn))
                (StExt.addEdge_plain _ _ _ _ (by simp) (by simp))
            · exact StExt.refl _ _
          · exact StExt.refl _ _
        · exact StExt.refl _ _
      · split
        · split
          · split
            · exact StExt.trans (StExt.addEdge_plain _ _ _ _ (by simp) (by simp))
                (StExt.of_graph_eq rfl)
            · exact StExt.addEdge_plain _ _ _ _ (by simp) (by simp)
          · exact StExt.refl _ _
        · exact StExt.refl _ _
      · split
        · exact init_addr_children_stExt _ _ _ _
        · exact StExt.refl _ _
      · exact ih.2 _ _ _
    · intro cs vi st
      match cs with
      | [] => exact StExt.refl _ _
      | c :: cs' =>
        simp only [init_children]
        exact StExt.trans (ih.1 _ _ _) (ih.2 _ _ _)

theorem asgn_alloc_stExt (m : Bool) (e : Entity) (ai ti : Nat) (st : St) :
    StExt m st (asgn_alloc e ai ti st) := by
  simp only [asgn_alloc]
  split
  · split
    · split
      · next hfn =>
        exact StExt.trans (StExt.addNode_ok _ _ (alloc_node_ok m _ _ hfn))
          (StExt.trans (StExt.addEdge_plain _ _ _ _ (by simp) (by simp))
            (StExt.addEdge_plain _ _ _ _ (by simp) (by simp)))
      · exact StExt.refl _ _
    · exact StExt.refl _ _
  · exact StExt.refl _ _

theorem process_assignment_value_stExt (m : Bool) (fuel : Nat) :
    (∀ e ai ti st, StExt m st (process_assignment_value fuel e ai ti st)) ∧
      (∀ cs ai ti st, StExt m st (asgn_children fuel cs ai ti st)) := by
  induction fuel with
  | zero => exact ⟨fun _ _ _ st => StExt.refl _ _, fun _ _ _ st => StExt.refl _ _⟩
  | succ n ih =>
    constructor
    · intro e ai ti st
      simp only [process_assignment_value]
      split
      · refine StExt.trans (asgn_alloc_stExt m e ai ti st) ?_
        exact StExt.congr_st (StExt.mono_flag (pce_stExt n e ai false
          { asgn_alloc e ai ti st with usr_map := [] })) rfl rfl
      · split
        · split
          · split
            · exact StExt.trans (StExt.addEdge_plain _ _ _ _ (by simp) (by simp))
                (StExt.of_graph_eq rfl)
            · exact StExt.addEdge_plain _ _ _ _ (by simp) (by simp)
          · exact StExt.refl _ _
        · exact StExt.refl _ _
      · split
        · exact asgn_addr_children_stExt _ _ _ _
        · exact StExt.refl _ _
      · exact ih.2 _ _ _ _
    · intro cs ai ti st
      match cs with
      | [] => exact StExt.refl _ _
      | c :: cs' =>
        simp only [asgn_children]
        refine StExt.trans ?_ (ih.2 _ _ _ _)
        split
        · split
          · split
            · exact StExt.addEdge_plain _ _ _ _ (by simp) (by simp)
            · exact StExt.refl _ _
          · exact StExt.refl _ _
        · exact ih.1 _ _ _ _

theorem var_kind_ne_memop {c1 c2 c3 : Prop} [Decidable c1] [Decidable c2] [Decidable c3] :
    ¬ (if c1 then NodeType.BufferParameter else if c2 then NodeType.Pointer
      else if c3 then NodeType.Array else NodeType.Variable) = NodeType.MemoryOp := by
  split
  · simp
  · split
    · simp
    · split <;> simp

theorem param_kind_ne_memop {c1 c2 : Prop} [Decidable c1] [Decidable c2] :
    ¬ (if c1 then NodeType.BufferParameter else if c2 then NodeType.Pointer
      else NodeType.Parameter) = NodeType.MemoryOp := by
  split
  · simp
  · split <;> simp

theorem fn_kind_ne_memop {c1 : Prop} [Decidable c1] :
    ¬ (if c1 then NodeType.Main else NodeType.Function) = NodeType.MemoryOp := by
  split <;> simp

theorem process_variable_decl_stExt (m : Bool) (fuel : Nat) (e : Entity) (st : St)
    (res : St × Option Nat) (h : process_variable_decl fuel e st = some res) :
    StExt m st res.1 := by
  simp only [process_variable_decl] at h
  split at h
  · cases h
    exact StExt.refl _ _
  · split at h
    · cases h
    · split at h
      · cases h
        refine StExt.trans (StExt.trans (StExt.addNode_ok _ _ ?_) (StExt.of_graph_eq rfl))
          ((process_init_stExt m fuel).1 _ _ _)
        intro _ hk
        exact absurd hk var_kind_ne_memop
      · cases h
        refine StExt.trans (StExt.addNode_ok _ _ ?_) (StExt.of_graph_eq rfl)
        intro _ hk
        exact absurd hk var_kind_ne_memop

theorem process_params_stExt (m : Bool) (ps : List Entity) (fname : String) (fidx : Nat)
    (st st' : St) (h : process_params ps fname fidx st = some st') :
    StExt m st st' := by
  induction ps generalizing st with
  | nil =>
    simp only [process_params] at h
    cases h
    exact StExt.refl _ _
  | cons p ps ih =>
    simp only [process_params] at h
    split at h
    · split at h
      · cases h
      · refine StExt.trans ?_ (ih _ h)
        refine StExt.trans (StExt.addNode_ok _ _ ?_)
          (StExt.trans (StExt.addEdge_plain _ _ _ _ (by simp) (by simp))
            (StExt.of_graph_eq rfl))
        intro _ hk
        exact absurd hk param_kind_ne_memop
    · exact ih _ h

theorem find_all_functions_stExt (m : Bool) (fuel : Nat) :
    (∀ e st, StExt m st (find_all_functions fuel e st)) ∧
      (∀ cs st, StExt m st (find_all_list fuel cs st)) := by
  induction fuel with
  | zero => exact ⟨fun _ st => StExt.refl _ _, fun _ st => StExt.refl _ _⟩
  | succ n ih =>
    constructor
    · intro e st
      simp only [find_all_functions]
      split
      · exact StExt.refl _ _
      · split
        · split
          · split
            · split
              · refine StExt.trans (StExt.addNode_ok _ _ ?_) (StExt.of_graph_eq rfl)
                intro _ hk
                exact absurd hk fn_kind_ne_memop
              · refine StExt.trans (StExt.addNode_ok _ _ ?_) (StExt.of_graph_eq rfl)
                intro _ hk
                exact absurd hk fn_kind_ne_memop
            · exact StExt.refl _ _
          · exact StExt.refl _ _
        · exact ih.2 _ _
    · intro cs st
      match cs with
      | [] => exact StExt.refl _ _
      | c :: cs' =>
        simp only [find_all_list]
        exact StExt.trans (ih.1 _ _) (ih.2 _ _)

theorem StExt.procIns_step (m : Bool) (st : St) (s : String) : StExt m st (procIns st s) :=
  StExt.of_graph_eq rfl

theorem master_stExt (fuel : Nat) :
    (∀ e parent mt st st', process_statement fuel e parent mt st = some st' → StExt mt st st') ∧
    (∀ cs parent mt st st', stmt_list fuel cs parent mt st = some st' → StExt mt st st') ∧
    (∀ cs parent st st', decl_stmt_children fuel cs parent st = some st' →
      ∀ m, StExt m st st') ∧
    (∀ e parent st st', process_binary_operator fuel e parent st = some st' →
      ∀ m, StExt m st st') ∧
    (∀ cs parent st st', binop_children fuel cs parent st = some st' → ∀ m, StExt m st st') ∧
    (∀ e parent st st', process_unary_operator fuel e parent st = some st' →
      ∀ m, StExt m st st') ∧
    (∀ cs di st st', deref_children fuel cs di st = some st' → ∀ m, StExt m st st') ∧
    (∀ cs ai st st', addr_children fuel cs ai st = some st' → ∀ m, StExt m st st') ∧
    (∀ cs parent st st', unary_other_children fuel cs parent st = some st' →
      ∀ m, StExt m st st') ∧
    (∀ e parent st st', process_member_access fuel e parent st = some st' →
      ∀ m, StExt m st st') ∧
    (∀ cs ai st st', member_children fuel cs ai st = some st' → ∀ m, StExt m st st') ∧
    (∀ e parent st st', process_array_access fuel e parent st = some st' →
      ∀ m, StExt m st st') ∧
    (∀ e mt st r, process_if_statement fuel e mt st = some r → StExt mt st r.1) ∧
    (∀ e lt mt st r, process_loop fuel e lt mt st = some r →
      ¬ lt = NodeType.MemoryOp → StExt mt st r.1) ∧
    (∀ e mt st st', process_function fuel e mt st = some st' → StExt mt st st') ∧
    (∀ e mt st st', analyze_program fuel e mt st = some st' → StExt mt st st') ∧
    (∀ cs mt st st', analyze_children fuel cs mt st = some st' → StExt mt st st') := by
  induction fuel with
  | zero =>
    refine ⟨?_, ?_, ?_, ?_, ?_, ?_, ?_, ?_, ?_, ?_, ?_, ?_, ?_, ?_, ?_, ?_, ?_⟩
    · intro e parent mt st st' h; cases h; exact StExt.refl _ _
    · intro cs parent mt st st' h; cases h; exact StExt.refl _ _
    · intro cs parent st st' h m; cases h; exact StExt.refl _ _
    · intro e parent st st' h m; cases h; exact StExt.refl _ _
    · intro cs parent st st' h m; cases h; exact StExt.refl _ _
    · intro e parent st st' h m; cases h; exact StExt.refl _ _
    · intro cs di st st' h m; cases h; exact StExt.refl _ _
    · intro cs ai st st' h m; cases h; exact StExt.refl _ _
    · intro cs parent st st' h m; cases h; exact StExt.refl _ _
    · intro e parent st st' h m; cases h; exact StExt.refl _ _
    · intro cs ai st st' h m; cases h; exact StExt.refl _ _
    · intro e parent st st' h m; cases h; exact StExt.refl _ _
    · intro e mt st r h; cases h; exact StExt.refl _ _
    · intro e lt mt st r h hlt; cases h; exact StExt.refl _ _
    · intro e mt st st' h; cases h; exact StExt.refl _ _
    · intro e mt st st' h; cases h; exact StExt.refl _ _
    · intro cs mt st st' h; cases h; exact StExt.refl _ _
  | succ n ih =>
    obtain ⟨ihS, ihL, ihD, ihB, ihBC, ihU, ihDC, ihAC, ihUO, ihM, ihMC, ihA,
      ihIf, ihLp, ihF, ihAn, ihAK⟩ := ih
    refine ⟨?_, ?_, ?_, ?_, ?_, ?_, ?_, ?_, ?_, ?_, ?_, ?_, ?_, ?_, ?_, ?_, ?_⟩
    · intro e parent mt st st' h
      simp only [process_statement] at h
      split at h
      · cases h; exact pce_stExt n e parent mt st
      · exact StExt.mono_flag (ihD _ _ _ _ h false) |>.mono_flag.mono_flag |>.mono_flag
      · exact ihB _ _ _ _ h mt
      · exact ihU _ _ _ _ h mt
      · exact ihB _ _ _ _ h mt
      · exact ihB _ _ _ _ h mt
      · split at h
        · cases h
        · next st1 idx heq =>
          cases h
          exact StExt.trans (ihIf _ _ _ _ heq)
            (StExt.addEdge_plain _ _ _ _ (by simp) (by simp))
        · next st1 heq =>
          cases h
          exact ihIf _ _ _ _ heq
      · split at h
        · cases h
        · next st1 idx heq =>
          cases h
          exact StExt.trans (ihLp _ _ _ _ _ heq (by intro hc; cases hc))
            (StExt.addEdge_plain _ _ _ _ (by simp) (by simp))
        · next st1 heq =>
          cases h
          exact ihLp _ _ _ _ _ heq (by intro hc; cases hc)
      · split at h
        · cases h
        · next st1 idx heq =>
          cases h
          exact StExt.trans (ihLp _ _ _ _ _ heq (by intro hc; cases hc))
            (StExt.addEdge_plain _ _ _ _ (by simp) (by simp))
        · next st1 heq =>
          cases h
          exact ihLp _ _ _ _ _ heq (by intro hc; cases hc)
      · exact ihM _ _ _ _ h mt
      · exact ihA _ _ _ _ h mt
      · exact ihL _ _ _ _ _ h
      · split at h
        · split at h
          · cases h; exact StExt.addEdge_plain _ _ _ _ (by simp) (by simp)
          · cases h; exact StExt.refl _ _
        · cases h; exact StExt.refl _ _
      · exact ihL _ _ _ _ _ h
    · intro cs parent mt st st' h
      match cs with
      | [] =>
        simp only [stmt_list] at h
        cases h
        exact StExt.refl _ _
      | c :: cs2 =>
        simp only [stmt_list] at h
        split at h
        · cases h
        · next st1 heq => exact StExt.trans (ihS _ _ _ _ _ heq) (ihL _ _ _ _ _ h)
    · intro cs parent st st' h m
      match cs with
      | [] =>
        simp only [decl_stmt_children] at h
        cases h
        exact StExt.refl _ _
      | c :: cs2 =>
        simp only [decl_stmt_children] at h
        split at h
        · split at h
          · cases h
          · next st1 vi heq =>
            refine StExt.trans (process_variable_decl_stExt m n c st _ heq) ?_
            exact StExt.trans (StExt.addEdge_plain _ _ _ _ (by simp) (by simp))
              (ihD _ _ _ _ h m)
          · next st1 heq =>
            exact StExt.trans (process_variable_decl_stExt m n c st _ heq) (ihD _ _ _ _ h m)
        · exact ihD _ _ _ _ h m
    · intro e parent st st' h m
      simp only [process_binary_operator] at h
      split at h
      · split at h
        · split at h
          · cases h
            exact StExt.trans (StExt.addNode_ok _ _ (fun _ hk => by cases hk))
              (StExt.trans (StExt.addEdge_plain _ _ _ _ (by simp) (by simp))
                (StExt.trans (StExt.addEdge_plain _ _ _ _ (by simp) (by simp))
                  ((process_assignment_value_stExt m n).1 _ _ _ _)))
          · cases h; exact StExt.refl _ _
        · cases h; exact StExt.refl _ _
      · exact ihBC _ _ _ _ h m
    · intro cs parent st st' h m
      match cs with
      | [] =>
        simp only [binop_children] at h
        cases h
        exact StExt.refl _ _
      | c :: cs2 =>
        simp only [binop_children] at h
        split at h
        · cases h
        · next st1 heq =>
          exact StExt.trans
            (StExt.congr_st (StExt.mono_flag (ihS _ _ _ _ _ heq)) rfl rfl)
            (ihBC _ _ _ _ h m)
    · intro e parent st st' h m
      simp only [process_unary_operator] at h
      split at h
      · exact StExt.trans (StExt.addNode_ok _ _ (fun _ hk => by cases hk))
          (StExt.trans (StExt.addEdge_plain _ _ _ _ (by simp) (by simp))
            (ihDC _ _ _ _ h m))
      · split at h
        · exact StExt.trans (StExt.addNode_ok _ _ (fun _ hk => by cases hk))
            (StExt.trans (StExt.addEdge_plain _ _ _ _ (by simp) (by simp))
              (ihAC _ _ _ _ h m))
        · exact ihUO _ _ _ _ h m
    · intro cs di st st' h m
      match cs with
      | [] =>
        simp only [deref_children] at h
        cases h
        exact StExt.refl _ _
      | c :: cs2 =>
        simp only [deref_children] at h
        split at h
        · refine StExt.trans ?_ (ihDC _ _ _ _ h m)
          split
          · split
            · split
              · exact StExt.trans (StExt.addEdge_plain _ _ _ _ (by simp) (by simp))
                  (StExt.addEdge_plain _ _ _ _ (by simp) (by simp))
              · exact StExt.addEdge_plain _ _ _ _ (by simp) (by simp)
            · exact StExt.refl _ _
          · exact StExt.refl _ _
        · split at h
          · cases h
          · next st1 heq =>
            exact StExt.trans
              (StExt.congr_st (StExt.mono_flag (ihS _ _ _ _ _ heq)) rfl rfl)
              (ihDC _ _ _ _ h m)
    · intro cs ai st st' h m
      match cs with
      | [] =>
        simp only [addr_children] at h
        cases h
        exact StExt.refl _ _
      | c :: cs2 =>
        simp only [addr_children] at h
        split at h
        · refine StExt.trans ?_ (ihAC _ _ _ _ h m)
          split
          · split
            · exact StExt.addEdge_plain _ _ _ _ (by simp) (by simp)
            · exact StExt.refl _ _
          · exact StExt.refl _ _
        · split at h
          · cases h
          · next st1 heq =>
            exact StExt.trans
              (StExt.congr_st (StExt.mono_flag (ihS _ _ _ _ _ heq)) rfl rfl)
              (ihAC _ _ _ _ h m)
    · intro cs parent st st' h m
      match cs with
      | [] =>
        simp only [unary_other_children] at h
        cases h
        exact StExt.refl _ _
      | c :: cs2 =>
        simp only [unary_other_children] at h
        split at h
        · cases h
        · next st1 heq =>
          exact StExt.trans
            (StExt.congr_st (StExt.mono_flag (ihS _ _ _ _ _ heq)) rfl rfl)
            (ihUO _ _ _ _ h m)
    · intro e parent st st' h m
      simp only [process_member_access] at h
      exact StExt.trans (StExt.addNode_ok _ _ (fun _ hk => by cases hk))
        (StExt.trans (StExt.addEdge_plain _ _ _ _ (by simp) (by simp))
          (ihMC _ _ _ _ h m))
    · intro cs ai st st' h m
      match cs with
      | [] =>
        simp only [member_children] at h
        cases h
        exact StExt.refl _ _
      | c :: cs2 =>
        simp only [member_children] at h
        split at h
        · refine StExt.trans ?_ (ihMC _ _ _ _ h m)
          split
          · split
            · exact StExt.addEdge_plain _ _ _ _ (by simp) (by simp)
            · exact StExt.refl _ _
          · exact StExt.refl _ _
        · split at h
          · cases h
          · next st1 heq =>
            exact StExt.trans
              (StExt.congr_st (StExt.mono_flag (ihS _ _ _ _ _ heq)) rfl rfl)
              (ihMC _ _ _ _ h m)
    · intro e parent st st' h m
      simp only [process_array_access] at h
      split at h
      · cases h
        refine StExt.trans (StExt.addNode_ok _ _ ?_)
          (StExt.addEdge_plain _ _ _ _ (by simp) (by simp))
        intro _ hk; cases hk
      · split at h
        · cases h
        · next st3 heq =>
          have base : StExt m st st3 := by
            split at heq
            · cases heq
              refine StExt.trans
                (StExt.addNode_ok _ ⟨"ArrayAccess", NodeType.ArrayAccess,
                  get_line_number e, none, none⟩ (fun _ hk => by cases hk)) ?_
              refine StExt.trans
                (b := addEdge (addNode st ⟨"ArrayAccess", NodeType.ArrayAccess,
                  get_line_number e, none, none⟩).1 parent (addNode st ⟨"ArrayAccess",
                  NodeType.ArrayAccess, get_line_number e, none, none⟩).2 EdgeType.Contains)
                (StExt.addEdge_plain _ _ _ _ (by simp) (by simp)) ?_
              split
              · split
                · exact StExt.addEdge_plain _ _ _ _ (by simp) (by simp)
                · exact StExt.refl _ _
              · exact StExt.refl _ _
            · split at heq
              · cases heq
              · next stA heq2 =>
                cases heq
                refine StExt.trans
                  (StExt.addNode_ok _ ⟨"ArrayAccess", NodeType.ArrayAccess,
                    get_line_number e, none, none⟩ (fun _ hk => by cases hk)) ?_
                refine StExt.trans
                  (b := addEdge (addNode st ⟨"ArrayAccess", NodeType.ArrayAccess,
                    get_line_number e, none, none⟩).1 parent (addNode st ⟨"ArrayAccess",
                    NodeType.ArrayAccess, get_line_number e, none, none⟩).2 EdgeType.Contains)
                  (StExt.addEdge_plain _ _ _ _ (by simp) (by simp)) ?_
                exact StExt.congr_st (StExt.mono_flag (ihS _ _ _ _ _ heq2)) rfl rfl
          split at h
          · cases h
            exact base
          · cases h
            exact StExt.trans base
              (StExt.of_edgeOnly ((find_vr_edgeOnly n).1 _ _ _ _) (by simp) (by simp))
    · intro e mt st r h
      simp only [process_if_statement] at h
      split at h
      · cases h
      · next st3 heq =>
        have base : StExt mt st st3 := by
          refine StExt.trans
            (StExt.addNode_ok _ ⟨"If statement", NodeType.IfStatement,
              get_line_number e, none, none⟩ (fun _ hk => by cases hk)) ?_
          refine StExt.trans
            (b := (match e.children.find? (fun c => c.kind == .BinaryOperator ||
              c.kind == .UnaryOperator || c.kind == .DeclRefExpr) with
              | some cond => uses_sweep cond.children (addNode st ⟨"If statement",
                  NodeType.IfStatement, get_line_number e, none, none⟩).2
                  (addNode st ⟨"If statement", NodeType.IfStatement,
                  get_line_number e, none, none⟩).1
              | none => (addNode st ⟨"If statement", NodeType.IfStatement,
                  get_line_number e, none, none⟩).1)) ?_ ?_
          · split
            · exact StExt.of_edgeOnly (uses_sweep_edgeOnly _ _ _) (by simp) (by simp)
            · exact StExt.refl _ _
          · split at heq
            · next thenB hfind =>
              refine StExt.trans
                (StExt.addNode_ok _ ⟨"BasicBlock: then", NodeType.BasicBlock,
                  get_line_number thenB, none, none⟩ (fun _ hk => by cases hk)) ?_
              exact StExt.trans (StExt.addEdge_plain _ _ _ _ (by simp) (by simp))
                (ihL _ _ _ _ _ heq)
            · cases heq
              exact StExt.refl _ _
        split at h
        · next elseB hfind2 =>
          split at h
          · split at h
            · cases h
            · next st4 heq4 =>
              cases h
              refine StExt.trans base ?_
              refine StExt.trans
                (StExt.addNode_ok _ ⟨"BasicBlock: else", NodeType.BasicBlock,
                  get_line_number elseB, none, none⟩ (fun _ hk => by cases hk)) ?_
              exact StExt.trans (StExt.addEdge_plain _ _ _ _ (by simp) (by simp))
                (ihL _ _ _ _ _ heq4)
          · cases h
            exact base
        · cases h
          exact base
    · intro e lt mt st r h hlt
      simp only [process_loop] at h
      split at h
      · next body hbody =>
        split at h
        · cases h
        · next st3 heq =>
          cases h
          refine StExt.trans
            (StExt.addNode_ok _ ⟨loop_name_of lt, lt, get_line_number e, none, none⟩
              (fun _ hk => absurd hk hlt)) ?_
          refine StExt.trans
            (StExt.of_edgeOnly (loop_cond_sweep_edgeOnly e.children
              (addNode st ⟨loop_name_of lt, lt, get_line_number e, none, none⟩).2
              (addNode st ⟨loop_name_of lt, lt, get_line_number e, none, none⟩).1)
              (by simp) (by simp)) ?_
          refine StExt.trans
            (StExt.addNode_ok _ ⟨"BasicBlock: loop body", NodeType.BasicBlock,
              get_line_number body, none, none⟩ (fun _ hk => by cases hk)) ?_
          exact StExt.trans (StExt.addEdge_plain _ _ _ _ (by simp) (by simp))
            (ihL _ _ _ _ _ heq)
      · cases h
        refine StExt.trans
          (StExt.addNode_ok _ ⟨loop_name_of lt, lt, get_line_number e, none, none⟩
            (fun _ hk => absurd hk hlt)) ?_
        exact StExt.of_edgeOnly (loop_cond_sweep_edgeOnly _ _ _) (by simp) (by simp)
    · intro e mt st st' h
      simp only [process_function] at h
      split at h
      · cases h; exact StExt.refl _ _
      · split at h
        · cases h
        · next st2 heq2 =>
          have base : StExt mt st st2 := by
            revert heq2
            split
            · intro heq2
              exact process_params_stExt mt _ _ _ _ _ heq2
            · intro heq2
              refine StExt.trans ?_ (process_params_stExt mt _ _ _ _ _ heq2)
              split
              · refine StExt.trans (StExt.addNode_ok _ _ ?_) (StExt.of_graph_eq rfl)
                intro _ hk
                exact absurd hk fn_kind_ne_memop
              · refine StExt.trans (StExt.addNode_ok _ _ ?_) (StExt.of_graph_eq rfl)
                intro _ hk
                exact absurd hk fn_kind_ne_memop
          split at h
          · next body hbody =>
            refine StExt.trans base ?_
            refine StExt.trans
              (StExt.addNode_ok _ ⟨"BasicBlock: entry", NodeType.BasicBlock,
                get_line_number body, none, none⟩ (fun _ hk => by cases hk)) ?_
            exact StExt.trans (StExt.addEdge_plain _ _ _ _ (by simp) (by simp))
              (ihL _ _ _ _ _ h)
          · cases h
            exact base
    · intro e mt st st' h
      simp only [analyze_program] at h
      split at h
      · cases h; exact StExt.refl _ _
      · split at h
        · cases h; exact StExt.refl _ _
        · split at h
          · exact StExt.trans (StExt.procIns_step _ _ _) (ihF _ _ _ _ h)
          · split at h
            · cases h
            · next st1 vres heq =>
              cases h
              exact StExt.trans (StExt.procIns_step _ _ _)
                (process_variable_decl_stExt mt n e _ _ heq)
          · split at h
            · cases h
            · next st1 snd heq =>
              cases h
              exact StExt.trans (StExt.procIns_step _ _ _) (ihIf _ _ _ _ heq)
          · split at h
            · cases h
            · next st1 snd heq =>
              cases h
              exact StExt.trans (StExt.procIns_step _ _ _)
                (ihLp _ _ _ _ _ heq (by intro hc; cases hc))
          · split at h
            · cases h
            · next st1 snd heq =>
              cases h
              exact StExt.trans (StExt.procIns_step _ _ _)
                (ihLp _ _ _ _ _ heq (by intro hc; cases hc))
          · exact StExt.trans (StExt.procIns_step _ _ _) (ihAK _ _ _ _ h)
    · intro cs mt st st' h
      match cs with
      | [] =>
        simp only [analyze_children] at h
        cases h
        exact StExt.refl _ _
      | c :: cs2 =>
        simp only [analyze_children] at h
        split at h
        · cases h
        · next st1 heq => exact StExt.trans (ihAn _ _ _ _ heq) (ihAK _ _ _ _ h)

/-- The local typedness condition that rules out the two
`get_type().unwrap()` panic sites: a named `VarDecl` carries a type, and
every named argument of the entity carries a type. -/
def typedHere (e : Entity) : Bool :=
  (!(e.kind == .VarDecl) || e.name.isNone || e.ctype.isSome) &&
  e.args.all (fun p => p.name.isNone || p.ctype.isSome)

/-- Fuel-indexed typedness of a whole AST: `typedHere` holds at every
node reachable within the given depth. -/
def wellTypedF : Nat → Entity → Bool
  | 0, _ => true
  | n+1, e => typedHere e && e.children.all (wellTypedF n)

/-- Typedness at every depth. -/
def wellTyped (e : Entity) : Prop :=
  ∀ d, wellTypedF d e = true

/-- Fuel-indexed height bound: the tree has height below the bound. -/
def heightB : Nat → Entity → Bool
  | 0, _ => false
  | n+1, e => e.children.all (heightB n)

theorem wellTyped_typedHere {e : Entity} (h : wellTyped e) : typedHere e = true := by
  have h1 := h 1
  simp only [wellTypedF, Bool.and_eq_true, List.all_eq_true] at h1
  exact h1.1

theorem wellTyped_child {e c : Entity} (h : wellTyped e) (hc : c ∈ e.children) :
    wellTyped c := by
  intro d
  have h1 := h (d + 1)
  simp only [wellTypedF, Bool.and_eq_true, List.all_eq_true] at h1
  exact h1.2 c hc

theorem wellTyped_var {e : Entity} (h : wellTyped e) (hk : e.kind = .VarDecl) :
    (e.name.isNone || e.ctype.isSome) = true := by
  have ht := wellTyped_typedHere h
  simp only [typedHere, Bool.and_eq_true, Bool.or_eq_true, Bool.not_eq_true',
    beq_eq_false_iff_ne, ne_eq] at ht
  rcases ht.1 with (hc | hc) | hc
  · exact absurd hk hc
  · simp [hc]
  · simp [hc]

theorem wellTyped_args {e : Entity} (h : wellTyped e) {p : Entity} (hp : p ∈ e.args) :
    (p.name.isNone || p.ctype.isSome) = true := by
  have ht := wellTyped_typedHere h
  simp only [typedHere, Bool.and_eq_true, List.all_eq_true] at ht
  exact ht.2 p hp

theorem wellTypedF_up {n : Nat} {e : Entity} (hh : heightB n e = true)
    (hw : wellTypedF n e = true) : wellTyped e := by
  induction n generalizing e with
  | zero => cases hh
  | succ n ih =>
    intro d
    cases d with
    | zero => rfl
    | succ d =>
      simp only [heightB, List.all_eq_true] at hh
      simp only [wellTypedF, Bool.and_eq_true, List.all_eq_true] at hw ⊢
      exact ⟨hw.1, fun c hc => ih (hh c hc) (hw.2 c hc) d⟩

theorem process_variable_decl_isSome (fuel : Nat) (e : Entity) (st : St)
    (h : (e.name.isNone || e.ctype.isSome) = true) :
    (process_variable_decl fuel e st).isSome = true := by
  simp only [process_variable_decl]
  split
  · simp
  · next name hname =>
    rw [hname] at h
    simp only [Option.isNone_some, Bool.false_or] at h
    split
    · next hct => rw [hct] at h; cases h
    · split <;> simp

theorem process_params_isSome (ps : List Entity) (fname : String) (fidx : Nat) (st : St)
    (h : ∀ p ∈ ps, (p.name.isNone || p.ctype.isSome) = true) :
    (process_params ps fname fidx st).isSome = true := by
  induction ps generalizing st with
  | nil => simp [process_params]
  | cons p ps ih =>
    simp only [process_params]
    split
    · next pname hpn =>
      have hp := h p (by simp)
      rw [hpn] at hp
      simp only [Option.isNone_some, Bool.false_or] at hp
      split
      · next hct => rw [hct] at hp; cases hp
      · exact ih _ (fun q hq => h q (List.mem_cons_of_mem _ hq))
    · exact ih _ (fun q hq => h q (List.mem_cons_of_mem _ hq))

theorem master_noPanic (fuel : Nat) :
    (∀ e parent mt st, wellTyped e → (process_statement fuel e parent mt st).isSome = true) ∧
    (∀ cs parent mt st, (∀ c ∈ cs, wellTyped c) →
      (stmt_list fuel cs parent mt st).isSome = true) ∧
    (∀ cs parent st, (∀ c ∈ cs, wellTyped c) →
      (decl_stmt_children fuel cs parent st).isSome = true) ∧
    (∀ e parent st, wellTyped e → (process_binary_operator fuel e parent st).isSome = true) ∧
    (∀ cs parent st, (∀ c ∈ cs, wellTyped c) →
      (binop_children fuel cs parent st).isSome = true) ∧
    (∀ e parent st, wellTyped e → (process_unary_operator fuel e parent st).isSome = true) ∧
    (∀ cs di st, (∀ c ∈ cs, wellTyped c) → (deref_children fuel cs di st).isSome = true) ∧
    (∀ cs ai st, (∀ c ∈ cs, wellTyped c) → (addr_children fuel cs ai st).isSome = true) ∧
    (∀ cs parent st, (∀ c ∈ cs, wellTyped c) →
      (unary_other_children fuel cs parent st).isSome = true) ∧
    (∀ e parent st, wellTyped e → (process_member_access fuel e parent st).isSome = true) ∧
    (∀ cs ai st, (∀ c ∈ cs, wellTyped c) → (member_children fuel cs ai st).isSome = true) ∧
    (∀ e parent st, wellTyped e → (process_array_access fuel e parent st).isSome = true) ∧
    (∀ e mt st, wellTyped e → (process_if_statement fuel e mt st).isSome = true) ∧
    (∀ e lt mt st, wellTyped e → (process_loop fuel e lt mt st).isSome = true) ∧
    (∀ e mt st, wellTyped e → (process_function fuel e mt st).isSome = true) ∧
    (∀ e mt st, wellTyped e → (analyze_program fuel e mt st).isSome = true) ∧
    (∀ cs mt st, (∀ c ∈ cs, wellTyped c) → (analyze_children fuel cs mt st).isSome = true) := by
  induction fuel with
  | zero =>
    refine ⟨?_, ?_, ?_, ?_, ?_, ?_, ?_, ?_, ?_, ?_, ?_, ?_, ?_, ?_, ?_, ?_, ?_⟩
    · intro e parent mt st _; simp [process_statement]
    · intro cs parent mt st _; simp [stmt_list]
    · intro cs parent st _; simp [decl_stmt_children]
    · intro e parent st _; simp [process_binary_operator]
    · intro cs parent st _; simp [binop_children]
    · intro e parent st _; simp [process_unary_operator]
    · intro cs di st _; simp [deref_children]
    · intro cs ai st _; simp [addr_children]
    · intro cs parent st _; simp [unary_other_children]
    · intro e parent st _; simp [process_member_access]
    · intro cs ai st _; simp [member_children]
    · intro e parent st _; simp [process_array_access]
    · intro e mt st _; simp [process_if_statement]
    · intro e lt mt st _; simp [process_loop]
    · intro e mt st _; simp [process_function]
    · intro e mt st _; simp [analyze_program]
    · intro cs mt st _; simp [analyze_children]
  | succ n ih =>
    obtain ⟨ihS, ihL, ihD, ihB, ihBC, ihU, ihDC, ihAC, ihUO, ihM, ihMC, ihA,
      ihIf, ihLp, ihF, ihAn, ihAK⟩ := ih
    refine ⟨?_, ?_, ?_, ?_, ?_, ?_, ?_, ?_, ?_, ?_, ?_, ?_, ?_, ?_, ?_, ?_, ?_⟩
    · intro e parent mt st hW
      simp only [process_statement]
      split
      · simp
      · exact ihD _ _ _ (fun c hc => wellTyped_child hW hc)
      · exact ihB _ _ _ hW
      · exact ihU _ _ _ hW
      · exact ihB _ _ _ hW
      · exact ihB _ _ _ hW
      · split
        · next h1 => exact absurd (ihIf e mt st hW) (by rw [h1]; simp)
        · simp
        · simp
      · split
        · next h1 => exact absurd (ihLp e .ForLoop mt st hW) (by rw [h1]; simp)
        · simp
        · simp
      · split
        · next h1 => exact absurd (ihLp e .WhileLoop mt st hW) (by rw [h1]; simp)
        · simp
        · simp
      · exact ihM _ _ _ hW
      · exact ihA _ _ _ hW
      · exact ihL _ _ _ _ (fun c hc => wellTyped_child hW hc)
      · split
        · split <;> simp
        · simp
      · exact ihL _ _ _ _ (fun c hc => wellTyped_child hW hc)
    · intro cs parent mt st hcs
      match cs with
      | [] => simp [stmt_list]
      | c :: cs2 =>
        simp only [stmt_list]
        split
        · next h1 =>
          exact absurd (ihS c parent mt st (hcs c (by simp))) (by rw [h1]; simp)
        · next st1 h1 =>
          exact ihL cs2 parent mt st1 (fun d hd => hcs d (List.mem_cons_of_mem _ hd))
    · intro cs parent st hcs
      match cs with
      | [] => simp [decl_stmt_children]
      | c :: cs2 =>
        simp only [decl_stmt_children]
        split
        · next hk =>
          split
          · next h1 =>
            exact absurd (process_variable_decl_isSome n c st
              (wellTyped_var (hcs c (by simp)) (beq_iff_eq.mp hk))) (by rw [h1]; simp)
          · next st1 vi h1 =>
            exact ihD cs2 parent _ (fun d hd => hcs d (List.mem_cons_of_mem _ hd))
          · next st1 h1 =>
            exact ihD cs2 parent _ (fun d hd => hcs d (List.mem_cons_of_mem _ hd))
        · exact ihD cs2 parent st (fun d hd => hcs d (List.mem_cons_of_mem _ hd))
    · intro e parent st hW
      simp only [process_binary_operator]
      split
      · split
        · split <;> simp
        · simp
      · exact ihBC _ _ _ (fun c hc => wellTyped_child hW hc)
    · intro cs parent st hcs
      match cs with
      | [] => simp [binop_children]
      | c :: cs2 =>
        simp only [binop_children]
        split
        · next h1 =>
          exact absurd (ihS c parent false _ (hcs c (by simp))) (by rw [h1]; simp)
        · next st1 h1 =>
          exact ihBC cs2 parent _ (fun d hd => hcs d (List.mem_cons_of_mem _ hd))
    · intro e parent st hW
      simp only [process_unary_operator]
      split
      · exact ihDC _ _ _ (fun c hc => wellTyped_child hW hc)
      · split
        · exact ihAC _ _ _ (fun c hc => wellTyped_child hW hc)
        · exact ihUO _ _ _ (fun c hc => wellTyped_child hW hc)
    · intro cs di st hcs
      match cs with
      | [] => simp [deref_children]
      | c :: cs2 =>
        simp only [deref_children]
        split
        · exact ihDC cs2 di _ (fun d hd => hcs d (List.mem_cons_of_mem _ hd))
        · split
          · next h1 =>
            exact absurd (ihS c di false _ (hcs c (by simp))) (by rw [h1]; simp)
          · next st1 h1 =>
            exact ihDC cs2 di _ (fun d hd => hcs d (List.mem_cons_of_mem _ hd))
    · intro cs ai st hcs
      match cs with
      | [] => simp [addr_children]
      | c :: cs2 =>
        simp only [addr_children]
        split
        · exact ihAC cs2 ai _ (fun d hd => hcs d (List.mem_cons_of_mem _ hd))
        · split
          · next h1 =>
            exact absurd (ihS c ai false _ (hcs c (by simp))) (by rw [h1]; simp)
          · next st1 h1 =>
            exact ihAC cs2 ai _ (fun d hd => hcs d (List.mem_cons_of_mem _ hd))
    · intro cs parent st hcs
      match cs with
      | [] => simp [unary_other_children]
      | c :: cs2 =>
        simp only [unary_other_children]
        split
        · next h1 =>
          exact absurd (ihS c parent false _ (hcs c (by simp))) (by rw [h1]; simp)
        · next st1 h1 =>
          exact ihUO cs2 parent _ (fun d hd => hcs d (List.mem_cons_of_mem _ hd))
    · intro e parent st hW
      simp only [process_member_access]
      exact ihMC _ _ _ (fun c hc => wellTyped_child hW hc)
    · intro cs ai st hcs
      match cs with
      | [] => simp [member_children]
      | c :: cs2 =>
        simp only [member_children]
        split
        · exact ihMC cs2 ai _ (fun d hd => hcs d (List.mem_cons_of_mem _ hd))
        · split
          · next h1 =>
            exact absurd (ihS c ai false _ (hcs c (by simp))) (by rw [h1]; simp)
          · next st1 h1 =>
            exact ihMC cs2 ai _ (fun d hd => hcs d (List.mem_cons_of_mem _ hd))
    · intro e parent st hW
      simp only [process_array_access]
      split
      · simp
      · next arr rest heq =>
        have harr : wellTyped arr :=
          wellTyped_child hW (by rw [heq]; exact List.mem_cons_self _ _)
        split
        · next h0 =>
          split at h0
          · cases h0
          · split at h0
            · next h1 =>
              exact absurd (ihS arr _ false _ harr) (by rw [h1]; simp)
            · cases h0
        · next st3 h3 =>
          split <;> simp
    · intro e mt st hW
      simp only [process_if_statement]
      split
      · next h0 =>
        split at h0
        · next thenB hfind =>
          exact absurd (ihL thenB.children _ mt _
            (fun c hc => wellTyped_child
              (wellTyped_child hW (List.mem_of_find?_eq_some hfind)) hc))
            (by rw [h0]; simp)
        · cases h0
      · next st3 h3 =>
        split
        · next elseB hg =>
          split
          · split
            · next h4 =>
              exact absurd (ihL elseB.children _ mt _
                (fun c hc => wellTyped_child
                  (wellTyped_child hW (List.get?_mem hg)) hc))
                (by rw [h4]; simp)
            · simp
          · simp
        · simp
    · intro e lt mt st hW
      simp only [process_loop]
      split
      · next body hbody =>
        split
        · next h1 =>
          exact absurd (ihL body.children _ mt _
            (fun c hc => wellTyped_child
              (wellTyped_child hW (List.mem_of_find?_eq_some hbody)) hc))
            (by rw [h1]; simp)
        · simp
      · simp
    · intro e mt st hW
      simp only [process_function]
      split
      · simp
      · next name hname =>
        split
        · next h1 =>
          exact absurd (process_params_isSome e.args name _ _
            (fun p hp => wellTyped_args hW hp)) (by rw [h1]; simp)
        · next st2 h2 =>
          split
          · next body hbody =>
            exact ihL body.children _ mt _
              (fun c hc => wellTyped_child
                (wellTyped_child hW (List.mem_of_find?_eq_some hbody)) hc)
          · simp
    · intro e mt st hW
      simp only [analyze_program]
      split
      · simp
      · split
        · simp
        · split
          · exact ihF _ _ _ hW
          · next hk =>
            split
            · next h1 =>
              exact absurd (process_variable_decl_isSome n e _
                (wellTyped_var hW hk)) (by rw [h1]; simp)
            · simp
          · split
            · next h1 => exact absurd (ihIf e mt _ hW) (by rw [h1]; simp)
            · simp
          · split
            · next h1 => exact absurd (ihLp e _ mt _ hW) (by rw [h1]; simp)
            · simp
          · split
            · next h1 => exact absurd (ihLp e _ mt _ hW) (by rw [h1]; simp)
            · simp
          · exact ihAK _ _ _ (fun c hc => wellTyped_child hW hc)
    · intro cs mt st hcs
      match cs with
      | [] => simp [analyze_children]
      | c :: cs2 =>
        simp only [analyze_children]
        split
        · next h1 =>
          exact absurd (ihAn c mt st (hcs c (by simp))) (by rw [h1]; simp)
        · next st1 h1 =>
          exact ihAK cs2 mt st1 (fun d hd => hcs d (List.mem_cons_of_mem _ hd))

theorem run_analyzer_isSome (fuel : Nat) (root : Entity)
    (ec pa : List (String × String)) (mt : Bool) (h : wellTyped root) :
    (run_analyzer fuel root ec pa mt).isSome = true := by
  simp only [run_analyzer]
  split
  · next h1 =>
    exact absurd
      ((master_noPanic fuel).2.2.2.2.2.2.2.2.2.2.2.2.2.2.2.1 root mt
        (find_all_functions fuel root emptySt) h) (by rw [h1]; simp)
  · simp

/-- Append-only node extension between graphs. -/
def GNodesExt (g h : Graph) : Prop := ∃ t, h.nodes = g.nodes ++ t

/-- Append-only edge extension between graphs, with the appended edges
drawn from the given kinds. -/
def GEdgesExtK (ks : List EdgeType) (g h : Graph) : Prop :=
  ∃ t, h.edges = g.edges ++ t ∧ ∀ ed ∈ t, ed.kind ∈ ks

theorem gnExt_refl (g : Graph) : GNodesExt g g := ⟨[], by simp⟩

theorem gnExt_trans {a b c : Graph} (h1 : GNodesExt a b) (h2 : GNodesExt b c) :
    GNodesExt a c := by
  obtain ⟨t1, ht1⟩ := h1
  obtain ⟨t2, ht2⟩ := h2
  exact ⟨t1 ++ t2, by rw [ht2, ht1, List.append_assoc]⟩

theorem gnExt_gAddEdge (g : Graph) (s t : Nat) (k : EdgeType) :
    GNodesExt g (gAddEdge g s t k) := ⟨[], by rw [List.append_nil]; rfl⟩

theorem gnExt_gAddNode (g : Graph) (n : Node) :
    GNodesExt g (gAddNode g n).1 := ⟨[n], rfl⟩

theorem geExt_refl (ks : List EdgeType) (g : Graph) : GEdgesExtK ks g g :=
  ⟨[], by simp⟩

theorem geExt_trans {ks : List EdgeType} {a b c : Graph}
    (h1 : GEdgesExtK ks a b) (h2 : GEdgesExtK ks b c) : GEdgesExtK ks a c := by
  obtain ⟨t1, ht1, hk1⟩ := h1
  obtain ⟨t2, ht2, hk2⟩ := h2
  refine ⟨t1 ++ t2, by rw [ht2, ht1, List.append_assoc], ?_⟩
  intro ed hed
  rcases List.mem_append.mp hed with h | h
  · exact hk1 ed h
  · exact hk2 ed h

theorem geExt_gAddEdge {ks : List EdgeType} {k : EdgeType} (g : Graph) (s t : Nat)
    (hk : k ∈ ks) : GEdgesExtK ks g (gAddEdge g s t k) :=
  ⟨[⟨s, t, k⟩], rfl, by simpa⟩

theorem geExt_gAddNode (ks : List EdgeType) (g : Graph) (n : Node) :
    GEdgesExtK ks g (gAddNode g n).1 := ⟨[], by rw [List.append_nil]; rfl, by simp⟩

theorem geExt_mono {ks ks' : List EdgeType} {g h : Graph}
    (h1 : GEdgesExtK ks g h) (hs : ∀ k ∈ ks, k ∈ ks') : GEdgesExtK ks' g h := by
  obtain ⟨t, ht, hk⟩ := h1
  exact ⟨t, ht, fun ed hed => hs _ (hk ed hed)⟩

/-- A generic fold preservation principle for a graph predicate. -/
theorem foldl_pres {α : Type} (P : Graph → Prop) (f : Graph → α → Graph)
    (hf : ∀ g a, P g → P (f g a)) (l : List α) (g : Graph) (h : P g) :
    P (l.foldl f g) := by
  induction l generalizing g with
  | nil => exact h
  | cons a l ih => exact ih (f g a) (hf g a h)

/-- A generic fold extension principle for a transitive step relation. -/
theorem foldl_rel {α : Type} (R : Graph → Graph → Prop) (f : Graph → α → Graph)
    (hstep : ∀ g a, R g (f g a)) (hrefl : ∀ g, R g g)
    (htrans : ∀ {a b c : Graph}, R a b → R b c → R a c) (l : List α) (g : Graph) :
    R g (l.foldl f g) := by
  induction l generalizing g with
  | nil => exact hrefl g
  | cons a l ih => exact htrans (hstep g a) (ih (f g a))

theorem fix_scan_step_nodes (nm c2n : List (String × Nat)) (g : Graph) (p : String × String) :
    GNodesExt g (fix_scan_step nm c2n g p) := by
  simp only [fix_scan_step]
  split
  · exact gnExt_refl g
  · split
    · split
      · exact gnExt_refl g
      · exact gnExt_trans (gnExt_gAddNode _ _)
          (gnExt_trans (gnExt_gAddEdge _ _ _ _) (gnExt_gAddEdge _ _ _ _))
    · exact gnExt_refl g

theorem fix_scan_step_edges (nm c2n : List (String × Nat)) (g : Graph) (p : String × String) :
    GEdgesExtK [EdgeType.Contains, EdgeType.Calls] g (fix_scan_step nm c2n g p) := by
  simp only [fix_scan_step]
  split
  · exact geExt_refl _ g
  · split
    · split
      · exact geExt_refl _ g
      · exact geExt_trans (geExt_gAddNode _ _ _)
          (geExt_trans (geExt_gAddEdge _ _ _ (by simp))
            (geExt_gAddEdge _ _ _ (by simp)))
    · exact geExt_refl _ g

theorem fix_pthread_step_nodes (nm : List (String × Nat)) (g : Graph) (p : String × String) :
    GNodesExt g (fix_pthread_step nm g p) := by
  simp only [fix_pthread_step]
  split
  · split
    · exact gnExt_refl g
    · split
      · exact gnExt_trans (gnExt_gAddNode _ _)
          (gnExt_trans (gnExt_gAddEdge _ _ _ _) (gnExt_gAddEdge _ _ _ _))
      · exact gnExt_refl g
  · exact gnExt_refl g

theorem fix_pthread_step_edges (nm : List (String × Nat)) (g : Graph) (p : String × String) :
    GEdgesExtK [EdgeType.Contains, EdgeType.References] g (fix_pthread_step nm g p) := by
  simp only [fix_pthread_step]
  split
  · split
    · exact geExt_refl _ g
    · split
      · exact geExt_trans (geExt_gAddNode _ _ _)
          (geExt_trans (geExt_gAddEdge _ _ _ (by simp))
            (geExt_gAddEdge _ _ _ (by simp)))
      · exact geExt_refl _ g
  · exact geExt_refl _ g

/-- A node appended by the reconciliation pass: a Call/UnsafeCall node
with no line, USR or type information. -/
def fixNodeOk (n : Node) : Prop :=
  (n.kind = NodeType.Call ∨ n.kind = NodeType.UnsafeCall) ∧
  n.line = none ∧ n.usr = none ∧ n.type_info = none

/-- Append-only node extension whose appended nodes are all
reconciliation nodes. -/
def GNodesExtP (g h : Graph) : Prop :=
  ∃ t, h.nodes = g.nodes ++ t ∧ ∀ n ∈ t, fixNodeOk n

theorem gnpExt_refl (g : Graph) : GNodesExtP g g := ⟨[], by simp, by simp⟩

theorem gnpExt_trans {a b c : Graph} (h1 : GNodesExtP a b) (h2 : GNodesExtP b c) :
    GNodesExtP a c := by
  obtain ⟨t1, ht1, hp1⟩ := h1
  obtain ⟨t2, ht2, hp2⟩ := h2
  refine ⟨t1 ++ t2, by rw [ht2, ht1, List.append_assoc], ?_⟩
  intro n hn
  rcases List.mem_append.mp hn with h | h
  · exact hp1 n h
  · exact hp2 n h

theorem gnpExt_gAddEdge (g : Graph) (s t : Nat) (k : EdgeType) :
    GNodesExtP g (gAddEdge g s t k) :=
  ⟨[], by rw [List.append_nil]; rfl, by simp⟩

theorem gnpExt_gAddNode {n : Node} (g : Graph) (hn : fixNodeOk n) :
    GNodesExtP g (gAddNode g n).1 := ⟨[n], rfl, by simpa⟩

theorem gnpExt_to_ext {g h : Graph} (he : GNodesExtP g h) : GNodesExt g h := by
  obtain ⟨t, ht, _⟩ := he
  exact ⟨t, ht⟩

theorem fix_scan_step_nodesP (nm c2n : List (String × Nat)) (g : Graph) (p : String × String) :
    GNodesExtP g (fix_scan_step nm c2n g p) := by
  simp only [fix_scan_step]
  split
  · exact gnpExt_refl g
  · split
    · split
      · exact gnpExt_refl g
      · exact gnpExt_trans
          (gnpExt_gAddNode _ ⟨by split <;> simp, rfl, rfl, rfl⟩)
          (gnpExt_trans (gnpExt_gAddEdge _ _ _ _) (gnpExt_gAddEdge _ _ _ _))
    · exact gnpExt_refl g

theorem fix_pthread_step_nodesP (nm : List (String × Nat)) (g : Graph) (p : String × String) :
    GNodesExtP g (fix_pthread_step nm g p) := by
  simp only [fix_pthread_step]
  split
  · split
    · exact gnpExt_refl g
    · split
      · exact gnpExt_trans
          (gnpExt_gAddNode _ ⟨Or.inl rfl, rfl, rfl, rfl⟩)
          (gnpExt_trans (gnpExt_gAddEdge _ _ _ _) (gnpExt_gAddEdge _ _ _ _))
      · exact gnpExt_refl g
  · exact gnpExt_refl g

/-- Over the whole reconciliation pass, nodes are appended and every
appended node is a bare Call/UnsafeCall reconciliation node. -/
theorem fix_nodesP (g : Graph) (nm : List (String × Nat))
    (ec pa : List (String × String)) :
    GNodesExtP g (fix_disconnected_calls g nm ec pa) := by
  simp only [fix_disconnected_calls]
  refine gnpExt_trans
    (gnpExt_trans
      (foldl_rel GNodesExtP (fix_scan_step nm (build_caller_to_node g))
        (fun h p => fix_scan_step_nodesP _ _ h p) gnpExt_refl
        (fun h1 h2 => gnpExt_trans h1 h2) ec g)
      (foldl_rel GNodesExtP (fix_pthread_step nm)
        (fun h p => fix_pthread_step_nodesP _ h p) gnpExt_refl
        (fun h1 h2 => gnpExt_trans h1 h2) pa _))
    (foldl_rel GNodesExtP (fun h p => gAddEdge h p.1 p.2 EdgeType.Calls)
      (fun h p => gnpExt_gAddEdge _ _ _ _) gnpExt_refl
      (fun h1 h2 => gnpExt_trans h1 h2) (collectPending g nm) _)

/-- Over the whole reconciliation pass, edges are appended and every
appended edge is a Contains, Calls or References edge. -/
theorem fix_edgesK (g : Graph) (nm : List (String × Nat))
    (ec pa : List (String × String)) :
    GEdgesExtK [EdgeType.Contains, EdgeType.Calls, EdgeType.References] g
      (fix_disconnected_calls g nm ec pa) := by
  simp only [fix_disconnected_calls]
  refine geExt_trans
    (geExt_trans
      (foldl_rel _ (fix_scan_step nm (build_caller_to_node g))
        (fun h p => geExt_mono (fix_scan_step_edges _ _ h p) (by simp))
        (geExt_refl _) (fun h1 h2 => geExt_trans h1 h2) ec g)
      (foldl_rel _ (fix_pthread_step nm)
        (fun h p => geExt_mono (fix_pthread_step_edges _ h p) (by simp))
        (geExt_refl _) (fun h1 h2 => geExt_trans h1 h2) pa _))
    (foldl_rel _ (fun h p => gAddEdge h p.1 p.2 EdgeType.Calls)
      (fun h p => geExt_gAddEdge _ _ _ (by simp)) (geExt_refl _)
      (fun h1 h2 => geExt_trans h1 h2) (collectPending g nm) _)

/-- Every Calls edge of the graph starts at a Call, UnsafeCall or
MemoryOp node. -/
def CallsSrcOk (g : Graph) : Prop :=
  ∀ ed ∈ g.edges, ed.kind = EdgeType.Calls →
    ∃ n, g.nodes.get? ed.src = some n ∧
      (n.kind = NodeType.Call ∨ n.kind = NodeType.UnsafeCall ∨ n.kind = NodeType.MemoryOp)

theorem callsSrcOk_gAddNode {g : Graph} (n : Node) (h : CallsSrcOk g) :
    CallsSrcOk (gAddNode g n).1 := by
  intro ed hed hk
  obtain ⟨m, hm, hkind⟩ := h ed hed hk
  exact ⟨m, get?_mono rfl hm, hkind⟩

theorem callsSrcOk_gAddEdge_other {g : Graph} {s t : Nat} {k : EdgeType}
    (h : CallsSrcOk g) (hk : ¬ k = EdgeType.Calls) : CallsSrcOk (gAddEdge g s t k) := by
  intro ed hed hkc
  rcases List.mem_append.mp hed with hin | hnew
  · exact h ed hin hkc
  · simp only [List.mem_singleton] at hnew
    subst hnew
    exact absurd hkc hk

theorem callsSrcOk_gAddEdge_calls {g : Graph} {s t : Nat}
    (h : CallsSrcOk g)
    (hs : ∃ n, g.nodes.get? s = some n ∧
      (n.kind = NodeType.Call ∨ n.kind = NodeType.UnsafeCall ∨ n.kind = NodeType.MemoryOp)) :
    CallsSrcOk (gAddEdge g s t EdgeType.Calls) := by
  intro ed hed hkc
  rcases List.mem_append.mp hed with hin | hnew
  · exact h ed hin hkc
  · simp only [List.mem_singleton] at hnew
    subst hnew
    exact hs

theorem fix_scan_step_callsSrcOk (nm c2n : List (String × Nat)) (g : Graph)
    (p : String × String) (h : CallsSrcOk g) : CallsSrcOk (fix_scan_step nm c2n g p) := by
  simp only [fix_scan_step]
  split
  · exact h
  · split
    · split
      · exact h
      · refine callsSrcOk_gAddEdge_calls
          (callsSrcOk_gAddEdge_other (callsSrcOk_gAddNode _ h) (by simp)) ?_
        refine ⟨_, List.get?_concat_length _ _, ?_⟩
        split <;> simp
    · exact h

theorem fix_pthread_step_callsSrcOk (nm : List (String × Nat)) (g : Graph)
    (p : String × String) (h : CallsSrcOk g) : CallsSrcOk (fix_pthread_step nm g p) := by
  simp only [fix_pthread_step]
  split
  · split
    · exact h
    · split
      · exact callsSrcOk_gAddEdge_other
          (callsSrcOk_gAddEdge_other (callsSrcOk_gAddNode _ h) (by simp)) (by simp)
      · exact h
  · exact h

/-- Unpacking membership in the pending list of phase one. -/
theorem collectPending_mem {g : Graph} {nm : List (String × Nat)} {p : Nat × Nat}
    (h : p ∈ collectPending g nm) :
    ∃ n, g.nodes.get? p.1 = some n ∧
      (n.kind = NodeType.Call ∨ n.kind = NodeType.UnsafeCall) := by
  simp only [collectPending] at h
  obtain ⟨i, hi, hf⟩ := List.mem_filterMap.mp h
  split at hf
  · next node hget =>
    split at hf
    · next hkind =>
      split at hf
      · next fname hparse =>
        split at hf
        · cases hf
        · split at hf
          · next fi hlook =>
            cases hf
            refine ⟨node, hget, ?_⟩
            simpa using hkind
          · cases hf
      · cases hf
    · cases hf
  · cases hf

/-- Membership in the pending list of phase one, introduction form. -/
theorem collectPending_intro {g : Graph} {nm : List (String × Nat)} {i : Nat} {node : Node}
    {fname : String} {fi : Nat}
    (hget : g.nodes.get? i = some node)
    (hkind : (node.kind == NodeType.Call || node.kind == NodeType.UnsafeCall) = true)
    (hparse : parseCallLabel node.name = some fname)
    (hout : hasOutgoingCalls g i = false)
    (hlook : lookupS nm fname = some fi) :
    (i, fi) ∈ collectPending g nm := by
  simp only [collectPending]
  refine List.mem_filterMap.mpr ⟨i, List.mem_range.mpr ?_, ?_⟩
  · rcases Nat.lt_or_ge i g.nodes.length with hlt | hge
    · exact hlt
    · rw [List.get?_eq_none.mpr hge] at hget
      cases hget
  · rw [hget]
    simp [hkind, hparse, hout, hlook]

theorem hasOutgoingCalls_mono {ks : List EdgeType} {g h : Graph} {i : Nat}
    (hE : GEdgesExtK ks g h) (hc : hasOutgoingCalls g i = true) :
    hasOutgoingCalls h i = true := by
  obtain ⟨t, ht, _⟩ := hE
  simp only [hasOutgoingCalls, List.any_eq_true] at hc ⊢
  obtain ⟨e, he, hp⟩ := hc
  exact ⟨e, by rw [ht]; exact List.mem_append_left _ he, hp⟩

/-- Adding the pending edges preserves the Calls-source invariant, given
that each pending source was a Call/UnsafeCall node of the original
graph and nodes have only been appended since. -/
theorem pending_fold_callsSrcOk {g0 : Graph} (ps : List (Nat × Nat)) (g : Graph)
    (hsrc : ∀ p ∈ ps, ∃ n, g0.nodes.get? p.1 = some n ∧
      (n.kind = NodeType.Call ∨ n.kind = NodeType.UnsafeCall))
    (hN : GNodesExt g0 g) (h : CallsSrcOk g) :
    CallsSrcOk (ps.foldl (fun h p => gAddEdge h p.1 p.2 EdgeType.Calls) g) := by
  induction ps generalizing g with
  | nil => exact h
  | cons p ps ih =>
    refine ih _ (fun q hq => hsrc q (List.mem_cons_of_mem _ hq))
      (gnExt_trans hN (gnExt_gAddEdge _ _ _ _)) ?_
    refine callsSrcOk_gAddEdge_calls h ?_
    obtain ⟨n, hn, hk⟩ := hsrc p (by simp)
    obtain ⟨t, ht⟩ := hN
    exact ⟨n, get?_mono ht hn, by tauto⟩

/-- The reconciliation pass preserves the Calls-source invariant. -/
theorem fix_callsSrcOk (g : Graph) (nm : List (String × Nat))
    (ec pa : List (String × String)) (h : CallsSrcOk g) :
    CallsSrcOk (fix_disconnected_calls g nm ec pa) := by
  simp only [fix_disconnected_calls]
  have h2 : CallsSrcOk (ec.foldl (fix_scan_step nm (build_caller_to_node g)) g) :=
    foldl_pres CallsSrcOk _ (fun h p hp => fix_scan_step_callsSrcOk _ _ h p hp) ec g h
  have h3 : CallsSrcOk (pa.foldl (fix_pthread_step nm)
      (ec.foldl (fix_scan_step nm (build_caller_to_node g)) g)) :=
    foldl_pres CallsSrcOk _ (fun h p hp => fix_pthread_step_callsSrcOk _ h p hp) pa _ h2
  refine pending_fold_callsSrcOk _ _ (fun p hp => collectPending_mem hp) ?_ h3
  exact gnExt_trans
    (foldl_rel GNodesExt _ (fun h p => fix_scan_step_nodes _ _ h p) gnExt_refl
      (fun h1 h2 => gnExt_trans h1 h2) ec g)
    (foldl_rel GNodesExt _ (fun h p => fix_pthread_step_nodes _ h p) gnExt_refl
      (fun h1 h2 => gnExt_trans h1 h2) pa _)

/-- Once a pending pair is in the list, the final fold gives its source
an outgoing Calls edge. -/
theorem pending_fold_hasCalls {q : Nat × Nat} (ps : List (Nat × Nat)) (g : Graph)
    (hq : q ∈ ps) :
    hasOutgoingCalls (ps.foldl (fun h p => gAddEdge h p.1 p.2 EdgeType.Calls) g) q.1 = true := by
  induction ps generalizing g with
  | nil => cases hq
  | cons p ps ih =>
    rcases List.mem_cons.mp hq with rfl | hq2
    · refine hasOutgoingCalls_mono
        (foldl_rel (GEdgesExtK [EdgeType.Calls])
          (fun h p => gAddEdge h p.1 p.2 EdgeType.Calls)
          (fun h p => geExt_gAddEdge _ _ _ (by simp))
          (geExt_refl _) (fun h1 h2 => geExt_trans h1 h2) ps _) ?_
      simp [hasOutgoingCalls, gAddEdge]
    · exact ih _ hq2

/-- The round-trip property of reconciliation, for the nodes present
when the pass starts: an unconnected Call/UnsafeCall node whose parsed
callee resolves in the name map ends up with an outgoing Calls edge. -/
theorem fix_roundTrip (g : Graph) (nm : List (String × Nat))
    (ec pa : List (String × String)) (i : Nat) (node : Node) (fname : String) (fi : Nat)
    (hget : g.nodes.get? i = some node)
    (hkind : (node.kind == NodeType.Call || node.kind == NodeType.UnsafeCall) = true)
    (hparse : parseCallLabel node.name = some fname)
    (hlook : lookupS nm fname = some fi) :
    hasOutgoingCalls (fix_disconnected_calls g nm ec pa) i = true := by
  cases hout : hasOutgoingCalls g i with
  | true =>
    exact hasOutgoingCalls_mono (fix_edgesK g nm ec pa) hout
  | false =>
    have hmem : (i, fi) ∈ collectPending g nm :=
      collectPending_intro hget hkind hparse hout hlook
    simp only [fix_disconnected_calls]
    exact pending_fold_hasCalls (q := (i, fi)) _ _ hmem

theorem outEdges_mem_mono {ks : List EdgeType} {g h : Graph} {i : Nat} {e : GEdge}
    (hE : GEdgesExtK ks g h) (he : e ∈ outEdges g i) : e ∈ outEdges h i := by
  obtain ⟨t, ht, _⟩ := hE
  simp only [outEdges, List.mem_reverse, List.mem_filter] at he ⊢
  exact ⟨by rw [ht]; exact List.mem_append_left _ he.1, he.2⟩

theorem bb_children_decode {g : Graph} {i bb : Nat} (h : bb ∈ bb_children g i) :
    ∃ e ∈ outEdges g i, e.kind = EdgeType.Contains ∧ e.tgt = bb ∧
      ∃ n, g.nodes.get? bb = some n ∧ n.kind = NodeType.BasicBlock := by
  simp only [bb_children] at h
  obtain ⟨e, he, hf⟩ := List.mem_filterMap.mp h
  split at hf
  · next hk =>
    split at hf
    · next n hget =>
      split at hf
      · next hbk =>
        cases hf
        exact ⟨e, he, by simpa using hk, rfl, n, hget, by simpa using hbk⟩
      · cases hf
    · cases hf
  · cases hf

theorem bb_children_mono {ks : List EdgeType} {g h : Graph} {i bb : Nat}
    (hN : GNodesExt g h) (hE : GEdgesExtK ks g h) (hm : bb ∈ bb_children g i) :
    bb ∈ bb_children h i := by
  obtain ⟨t, ht⟩ := hN
  obtain ⟨e, he, hk, htg, n, hget, hbk⟩ := bb_children_decode hm
  simp only [bb_children]
  refine List.mem_filterMap.mpr ⟨e, outEdges_mem_mono hE he, ?_⟩
  subst htg
  have hg2 : h.nodes.get? e.tgt = some n := get?_mono ht hget
  simp only [hk, hg2, hbk, beq_self_eq_true, if_true]

theorem pthread_connected_mono {ks : List EdgeType} {g h : Graph} {ci hi : Nat}
    (hN : GNodesExt g h) (hE : GEdgesExtK ks g h)
    (hc : pthread_already_connected g ci hi = true) :
    pthread_already_connected h ci hi = true := by
  obtain ⟨t, ht⟩ := hN
  simp only [pthread_already_connected, List.any_eq_true] at hc ⊢
  obtain ⟨e, he, hp⟩ := hc
  refine ⟨e, outEdges_mem_mono hE he, ?_⟩
  simp only [Bool.and_eq_true] at hp ⊢
  refine ⟨hp.1, ?_⟩
  have hrest := hp.2
  split at hrest
  · next n hget =>
    have hg2 : h.nodes.get? e.tgt = some n := get?_mono ht hget
    simp only [Bool.and_eq_true, List.any_eq_true] at hrest
    obtain ⟨hbk, be, hbe, hbp⟩ := hrest
    simp only [hg2, Bool.and_eq_true, List.any_eq_true]
    obtain ⟨hbp1, hrest2⟩ := hbp
    refine ⟨hbk, be, outEdges_mem_mono hE hbe, hbp1, ?_⟩
    split at hrest2
    · next cn hget2 =>
      have hg3 : h.nodes.get? be.tgt = some cn := get?_mono ht hget2
      simp only [Bool.and_eq_true, List.any_eq_true] at hrest2
      obtain ⟨hnm, ce, hce, hcp⟩ := hrest2
      simp only [hg3, Bool.and_eq_true, List.any_eq_true]
      exact ⟨hnm, ce, outEdges_mem_mono hE hce, hcp⟩
    · cases hrest2
  · cases hrest

theorem mem_outEdges {g : Graph} {i : Nat} {e : GEdge} :
    e ∈ outEdges g i ↔ e ∈ g.edges ∧ (e.src == i) = true := by
  simp [outEdges, List.mem_reverse, List.mem_filter]

/-- Injecting a fresh `Call: pthread_create` node under a basic block
makes the caller pthread-connected to the handler. -/
theorem pthread_connect_inject {g : Graph} {ci hi bb : Nat} {e : GEdge} {n w : Node}
    (he : e ∈ g.edges) (hsrc : (e.src == ci) = true) (hk : e.kind = EdgeType.Contains)
    (htg : e.tgt = bb) (hget : g.nodes.get? bb = some n) (hnk : n.kind = NodeType.BasicBlock)
    (hw : w = ⟨"Call: pthread_create", NodeType.Call, none, none, none⟩) :
    pthread_already_connected
      (gAddEdge (gAddEdge (gAddNode g w).1 bb (gAddNode g w).2 EdgeType.Contains)
        (gAddNode g w).2 hi EdgeType.References) ci hi = true := by
  subst hw
  generalize hG : gAddEdge (gAddEdge
    (gAddNode g ⟨"Call: pthread_create", NodeType.Call, none, none, none⟩).1 bb
    (gAddNode g ⟨"Call: pthread_create", NodeType.Call, none, none, none⟩).2 EdgeType.Contains)
    (gAddNode g ⟨"Call: pthread_create", NodeType.Call, none, none, none⟩).2 hi
    EdgeType.References = G
  have hGn : G.nodes = g.nodes ++
      [⟨"Call: pthread_create", NodeType.Call, none, none, none⟩] := by rw [← hG]; rfl
  have hGe : G.edges = (g.edges ++ [⟨bb, g.nodes.length, EdgeType.Contains⟩]) ++
      [⟨g.nodes.length, hi, EdgeType.References⟩] := by rw [← hG]; rfl
  simp only [pthread_already_connected, List.any_eq_true]
  refine ⟨e, mem_outEdges.mpr ⟨?_, hsrc⟩, ?_⟩
  · rw [hGe]
    exact List.mem_append_left _ (List.mem_append_left _ he)
  · simp only [Bool.and_eq_true]
    refine ⟨by simp [hk], ?_⟩
    rw [htg]
    have hg1 : G.nodes.get? bb = some n := get?_mono hGn hget
    simp only [hg1, hnk, Bool.and_eq_true, List.any_eq_true]
    refine ⟨by simp, ⟨bb, g.nodes.length, EdgeType.Contains⟩, ?_, ?_⟩
    · refine mem_outEdges.mpr ⟨?_, by simp⟩
      rw [hGe]
      exact List.mem_append_left _ (List.mem_append_right _ (by simp))
    · simp only [Bool.and_eq_true]
      refine ⟨by simp, ?_⟩
      have hgw : G.nodes.get? g.nodes.length =
          some ⟨"Call: pthread_create", NodeType.Call, none, none, none⟩ := by
        rw [hGn]
        exact List.get?_concat_length _ _
      simp only [hgw, Bool.and_eq_true, List.any_eq_true]
      refine ⟨by simp, ⟨g.nodes.length, hi, EdgeType.References⟩, ?_, by simp⟩
      refine mem_outEdges.mpr ⟨?_, by simp⟩
      rw [hGe]
      exact List.mem_append_right _ (by simp)

theorem fix_pthread_step_id {nm : List (String × Nat)} {g : Graph} {p : String × String}
    {ci hi : Nat} (hci : lookupS nm p.1 = some ci) (hhi : lookupS nm p.2 = some hi)
    (hconn : pthread_already_connected g ci hi = true) :
    fix_pthread_step nm g p = g := by
  simp [fix_pthread_step, hci, hhi, hconn]

theorem fix_pthread_step_establishes {nm : List (String × Nat)} {g : Graph}
    {p : String × String} {ci hi : Nat}
    (hci : lookupS nm p.1 = some ci) (hhi : lookupS nm p.2 = some hi)
    (hbb : ∃ bb, bb ∈ bb_children g ci) :
    pthread_already_connected (fix_pthread_step nm g p) ci hi = true := by
  obtain ⟨bb0, hbb0⟩ := hbb
  simp only [fix_pthread_step, hci, hhi]
  split
  · next hconn => exact hconn
  · next hnc =>
    split
    · next bb hhead =>
      have hbbm : bb ∈ bb_children g ci := List.mem_of_mem_head? (by rw [hhead]; rfl)
      obtain ⟨e, he, hk, htg, n, hget, hnk⟩ := bb_children_decode hbbm
      exact pthread_connect_inject (mem_outEdges.mp he).1 (mem_outEdges.mp he).2
        hk htg hget hnk rfl
    · next hnone =>
      rw [List.head?_eq_none_iff] at hnone
      rw [hnone] at hbb0
      cases hbb0

theorem pthread_fold {nm : List (String × Nat)} {pa : List (String × String)}
    {p : String × String} {ci hi : Nat} (hp : p ∈ pa)
    (hci : lookupS nm p.1 = some ci) (hhi : lookupS nm p.2 = some hi)
    (g : Graph) (hbb : ∃ bb, bb ∈ bb_children g ci) :
    pthread_already_connected (pa.foldl (fix_pthread_step nm) g) ci hi = true := by
  induction pa generalizing g with
  | nil => cases hp
  | cons q qs ih =>
    rcases List.mem_cons.mp hp with rfl | hq
    · refine pthread_connected_mono
        (foldl_rel GNodesExt (fix_pthread_step nm)
          (fun h r => fix_pthread_step_nodes _ h r) gnExt_refl
          (fun h1 h2 => gnExt_trans h1 h2) qs _)
        (foldl_rel (GEdgesExtK [EdgeType.Contains, EdgeType.References]) (fix_pthread_step nm)
          (fun h r => fix_pthread_step_edges _ h r) (geExt_refl _)
          (fun h1 h2 => geExt_trans h1 h2) qs _)
        (fix_pthread_step_establishes hci hhi hbb)
    · refine ih hq _ ?_
      obtain ⟨bb0, hbb0⟩ := hbb
      exact ⟨bb0, bb_children_mono (fix_pthread_step_nodes _ _ _)
        (fix_pthread_step_edges _ _ _) hbb0⟩

/-- C5 support: after the whole reconciliation pass, a resolvable
(caller, handler) pthread pair whose caller has a basic-block child is
pthread-connected. -/
theorem fix_pthread_connected (g : Graph) (nm : List (String × Nat))
    (ec pa : List (String × String)) (p : String × String) (ci hi : Nat)
    (hp : p ∈ pa) (hci : lookupS nm p.1 = some ci) (hhi : lookupS nm p.2 = some hi)
    (hbb : ∃ bb, bb ∈ bb_children g ci) :
    pthread_already_connected (fix_disconnected_calls g nm ec pa) ci hi = true := by
  simp only [fix_disconnected_calls]
  refine pthread_connected_mono
    (foldl_rel GNodesExt (fun h q => gAddEdge h q.1 q.2 EdgeType.Calls)
      (fun h q => gnExt_gAddEdge _ _ _ _) gnExt_refl
      (fun h1 h2 => gnExt_trans h1 h2) (collectPending g nm) _)
    (foldl_rel (GEdgesExtK [EdgeType.Calls]) (fun h q => gAddEdge h q.1 q.2 EdgeType.Calls)
      (fun h q => geExt_gAddEdge _ _ _ (by simp)) (geExt_refl _)
      (fun h1 h2 => geExt_trans h1 h2) (collectPending g nm) _)
    (pthread_fold hp hci hhi _ ?_)
  obtain ⟨bb0, hbb0⟩ := hbb
  refine ⟨bb0, ?_⟩
  exact bb_children_mono
    (foldl_rel GNodesExt (fix_scan_step nm (build_caller_to_node g))
      (fun h q => fix_scan_step_nodes _ _ h q) gnExt_refl
      (fun h1 h2 => gnExt_trans h1 h2) ec g)
    (foldl_rel (GEdgesExtK [EdgeType.Contains, EdgeType.Calls])
      (fix_scan_step nm (build_caller_to_node g))
      (fun h q => fix_scan_step_edges _ _ h q) (geExt_refl _)
      (fun h1 h2 => geExt_trans h1 h2) ec g) hbb0

/-- Whole-pipeline Calls-source invariant: composing the two passes with
the reconciliation pass. -/
theorem run_analyzer_callsSrcOk (fuel : Nat) (root : Entity)
    (ec pa : List (String × String)) (mt : Bool) (st : St)
    (h : run_analyzer fuel root ec pa mt = some st) : CallsSrcOk st.g := by
  simp only [run_analyzer] at h
  split at h
  · cases h
  · next st2 heq =>
    cases h
    have hext : StExt mt emptySt st2 :=
      StExt.trans ((find_all_functions_stExt mt fuel).1 root emptySt)
        ((master_stExt fuel).2.2.2.2.2.2.2.2.2.2.2.2.2.2.2.1 root mt _ _ heq)
    have hok : CallsSrcOk st2.g := by
      obtain ⟨_, te, hte, hoke⟩ := hext
      intro ed hed hk
      rw [hte] at hed
      have hmem : ed ∈ te := by simpa [emptySt] using hed
      exact (hoke ed hmem).1 hk
    exact fix_callsSrcOk st2.g st2.node_map ec pa hok

/-- Whole-pipeline MemoryOp-label invariant with memory tracking off. -/
theorem run_analyzer_memOk (fuel : Nat) (root : Entity)
    (ec pa : List (String × String)) (st : St)
    (h : run_analyzer fuel root ec pa false = some st) :
    ∀ n ∈ st.g.nodes, n.kind = NodeType.MemoryOp → allocLabel n.name := by
  simp only [run_analyzer] at h
  split at h
  · cases h
  · next st2 heq =>
    cases h
    have hext : StExt false emptySt st2 :=
      StExt.trans ((find_all_functions_stExt false fuel).1 root emptySt)
        ((master_stExt fuel).2.2.2.2.2.2.2.2.2.2.2.2.2.2.2.1 root false _ _ heq)
    obtain ⟨⟨tn, htn, hokn⟩, _⟩ := hext
    obtain ⟨tf, htf, hokf⟩ := fix_nodesP st2.g st2.node_map ec pa
    intro n hn hk
    rw [htf, htn] at hn
    rcases List.mem_append.mp hn with hA | hB
    · have hmem : n ∈ tn := by simpa [emptySt] using hA
      exact hokn n hmem rfl hk
    · rcases (hokf n hB).1 with hc | hc <;> rw [hk] at hc <;> cases hc

/-- Entity constructor shorthand for the test translation units. -/
def eN (k : EntityKind) (n : Option String := none) (t : Option CType := none)
    (u : Option String := none) (l : Option SrcLoc := none) (d : Option String := none)
    (c : List Entity := []) (a : List Entity := []) (r : Option Entity := none) : Entity :=
  .mk k n t u l d c a r

/-- A translation unit where `main` calls `data()` while `helper` has a
parameter of the same bare name: `void helper(int data); int main() { data(); }`. -/
def tuC1 : Entity :=
  eN .TranslationUnit none none none none none
    [ eN .FunctionDecl (some "helper") (some ⟨"void (int)", some "void"⟩) (some "u_helper")
        (some ⟨"t.c", 1, 1⟩) none
        [] [eN .OtherKind (some "data") (some ⟨"int", none⟩) none (some ⟨"t.c", 1, 13⟩)] none,
      eN .FunctionDecl (some "main") (some ⟨"int ()", some "int"⟩) (some "u_main")
        (some ⟨"t.c", 2, 1⟩) none
        [ eN .CompoundStmt none none none (some ⟨"t.c", 2, 12⟩) none
            [ eN .CallExpr none none none (some ⟨"t.c", 3, 3⟩) none
                [eN .DeclRefExpr (some "data") none none (some ⟨"t.c", 3, 3⟩)] [] none ] ] [] none ]

/-- The analysis state produced for `tuC1`. -/
def stC1 : St := (run_analyzer 30 tuC1 [] [] false).getD emptySt

/-- A translation unit with `int *p = malloc(4);` at file scope. -/
def tuC3 : Entity :=
  eN .TranslationUnit none none none none none
    [ eN .VarDecl (some "p") (some ⟨"int *", none⟩) none (some ⟨"t.c", 1, 1⟩) none
        [ eN .CallExpr none none none (some ⟨"t.c", 1, 10⟩) none [] []
            (some (eN .FunctionDecl (some "malloc"))) ] [] none ]

/-- The analysis state produced for `tuC3` with memory tracking off. -/
def stC3 : St := (run_analyzer 30 tuC3 [] [] false).getD emptySt

/-- A translation unit with a named variable declaration that carries no
type, the shape on which `get_type().unwrap()` panics. -/
def tuC7 : Entity :=
  eN .TranslationUnit none none none none none
    [ eN .VarDecl (some "v") none none (some ⟨"t.c", 1, 1⟩) none [] [] none ]

/-- A translation unit with a function declaration for which the
front-end supplies no USR. -/
def tuC8 : Entity :=
  eN .TranslationUnit none none none none none
    [ eN .FunctionDecl (some "f") (some ⟨"void ()", some "void"⟩) none
        (some ⟨"t.c", 1, 1⟩) none [] [] none ]

/-- A reconciliation input graph: `main` with an entry block, a `handler`
function and a `pthread_create` declaration. -/
def gC2 : Graph :=
  ⟨[⟨"main", NodeType.Main, some 1, none, none⟩,
    ⟨"BasicBlock: entry", NodeType.BasicBlock, some 1, none, none⟩,
    ⟨"handler", NodeType.Function, some 2, none, none⟩,
    ⟨"pthread_create", NodeType.Function, none, none, none⟩],
   [⟨0, 1, EdgeType.Contains⟩]⟩

/-- The name map matching `gC2`. -/
def nmC2 : List (String × Nat) :=
  [("main", 0), ("handler", 2), ("pthread_create", 3)]

/-- A reconciliation input graph with a disconnected `Call: foo` node. -/
def gC2w : Graph :=
  ⟨[⟨"Call: foo", NodeType.Call, some 3, none, none⟩,
    ⟨"foo", NodeType.Function, some 1, none, none⟩],
   []⟩

/-- The name map matching `gC2w`. -/
def nmC2w : List (String × Nat) := [("foo", 1)]

/-- An unsafe call expression `strcpy(...)` with a resolved referent. -/
def eC4 : Entity :=
  eN .CallExpr none none none (some ⟨"t.c", 4, 3⟩) none [] []
    (some (eN .FunctionDecl (some "strcpy")))

/-- The declaration reference `x` of a pointer initializer `&x`. -/
def xRef : Entity := eN .DeclRefExpr (some "x")

/-- The declaration reference `q` of a dereference `*q`. -/
def qRef : Entity := eN .DeclRefExpr (some "q")

/-- The dereference expression `*q`. -/
def derefQ : Entity := eN .UnaryOperator none none none none (some "*") [qRef]

/-- A state that resolves `x` to node 0. -/
def stC6x : St :=
  ⟨⟨[⟨"Var: x", NodeType.Variable, some 1, none, none⟩], []⟩, [("x", 0)], [], [], []⟩

/-- A state that resolves `q` to node 1 with pointer target 0. -/
def stC6q : St :=
  ⟨⟨[⟨"Var: x", NodeType.Variable, some 1, none, none⟩,
     ⟨"Pointer: q (int *)", NodeType.Pointer, some 2, none, some "int *"⟩], []⟩,
   [("q", 1), ("x", 0)], [], [(1, 0)], []⟩

/-- An assignment `5 = 6` whose left-hand side is no declaration
reference. -/
def eC10 : Entity :=
  eN .BinaryOperator none none none none (some "=")
    [eN .IntegerLiteral, eN .IntegerLiteral]

/-- C1 (amended): for every `Calls` edge in the finished graph — whether
added during AST analysis or during reconciliation — the source node's
kind is `Call`, `UnsafeCall` or `MemoryOp`.  (The original target-kind
half of the claim is refuted by `C1_counterexample`.) -/
theorem C1_theorem (fuel : Nat) (root : Entity) (ec pa : List (String × String))
    (mt : Bool) (st : St) (h : run_analyzer fuel root ec pa mt = some st)
    (ed : GEdge) (hed : ed ∈ st.g.edges) (hk : ed.kind = EdgeType.Calls) :
    ∃ n, st.g.nodes.get? ed.src = some n ∧
      (n.kind = NodeType.Call ∨ n.kind = NodeType.UnsafeCall ∨ n.kind = NodeType.MemoryOp) :=
  run_analyzer_callsSrcOk fuel root ec pa mt st h ed hed hk

/-- C1 witness: the source-kind invariant instantiated on the `Calls`
edge the analyzer produces for `tuC1`. -/
theorem C1_witness :
    ∃ n, stC1.g.nodes.get? 4 = some n ∧
      (n.kind = NodeType.Call ∨ n.kind = NodeType.UnsafeCall ∨ n.kind = NodeType.MemoryOp) :=
  C1_theorem 30 tuC1 [] [] false stC1 (by decide) ⟨4, 2, EdgeType.Calls⟩ (by decide) rfl

/-- C1 counterexample: on `tuC1` — `void helper(int data); int main() {
data(); }` — the finished graph holds a `Calls` edge whose target is the
`Parameter` node `data`, not a `Function` or `Main` node, refuting the
target-kind half of the claim. -/
theorem C1_counterexample :
    run_analyzer 30 tuC1 [] [] false = some stC1 ∧
    (stC1.g.edges.any fun e => e.kind == EdgeType.Calls &&
      (nodeKind? stC1.g e.tgt == some NodeType.Parameter)) = true :=
  ⟨by decide, by decide⟩

/-- C2 (amended): every node already present when reconciliation starts
whose kind is `Call`/`UnsafeCall` and whose label parses as `Call: X` or
`Unsafe: X` with `X` resolvable in the name map has an outgoing `Calls`
edge after `fix_disconnected_calls`.  (Nodes injected during the pass
itself escape the scan, refuted by `C2_counterexample`.) -/
theorem C2_theorem (g : Graph) (nm : List (String × Nat)) (ec pa : List (String × String))
    (i : Nat) (node : Node) (fname : String) (fi : Nat)
    (hget : g.nodes.get? i = some node)
    (hkind : (node.kind == NodeType.Call || node.kind == NodeType.UnsafeCall) = true)
    (hparse : parseCallLabel node.name = some fname)
    (hlook : lookupS nm fname = some fi) :
    hasOutgoingCalls (fix_disconnected_calls g nm ec pa) i = true :=
  fix_roundTrip g nm ec pa i node fname fi hget hkind hparse hlook

/-- C2 witness: the round trip instantiated on a disconnected
`Call: foo` node of `gC2w`. -/
theorem C2_witness : hasOutgoingCalls (fix_disconnected_calls gC2w nmC2w [] []) 0 = true :=
  C2_theorem gC2w nmC2w [] [] 0 ⟨"Call: foo", NodeType.Call, some 3, none, none⟩ "foo" 1
    (by decide) (by decide) (by decide) (by decide)

/-- C2 counterexample: the `Call: pthread_create` node injected by phase
three of reconciliation parses to the resolvable, non-standard-library
name `pthread_create`, yet ends the pass without any outgoing `Calls`
edge, because the pending list was collected before the node existed. -/
theorem C2_counterexample :
    (fix_disconnected_calls gC2 nmC2 [] [("main", "handler")]).nodes.get? 4 =
      some ⟨"Call: pthread_create", NodeType.Call, none, none, none⟩ ∧
    parseCallLabel "Call: pthread_create" = some "pthread_create" ∧
    lookupS nmC2 "pthread_create" = some 3 ∧
    is_standard_library_function "pthread_create" = false ∧
    hasOutgoingCalls (fix_disconnected_calls gC2 nmC2 [] [("main", "handler")]) 4 = false :=
  ⟨by decide, by decide, by decide, by decide, by decide⟩

/-- C3 (amended): with memory tracking off, every `MemoryOp` node of the
finished graph carries an allocator label `MemoryOp: malloc`/`calloc`/
`realloc`.  (That no `MemoryOp` node exists at all is refuted by
`C3_counterexample`: initializers and assignment values create them
regardless of the flag.) -/
theorem C3_theorem (fuel : Nat) (root : Entity) (ec pa : List (String × String)) (st : St)
    (h : run_analyzer fuel root ec pa false = some st)
    (n : Node) (hn : n ∈ st.g.nodes) (hk : n.kind = NodeType.MemoryOp) :
    allocLabel n.name :=
  run_analyzer_memOk fuel root ec pa st h n hn hk

/-- C3 witness: the allocator-label invariant instantiated on the
`MemoryOp` node the analyzer produces for `tuC3`. -/
theorem C3_witness : allocLabel "MemoryOp: malloc" :=
  C3_theorem 30 tuC3 [] [] stC3 (by decide)
    ⟨"MemoryOp: malloc", NodeType.MemoryOp, some 1, none, none⟩ (by decide) rfl

/-- C3 counterexample: `int *p = malloc(4);` analyzed with memory
tracking off still yields a `MemoryOp` node in the finished graph. -/
theorem C3_counterexample :
    run_analyzer 30 tuC3 [] [] false = some stC3 ∧
    (stC3.g.nodes.any fun n => n.kind == NodeType.MemoryOp) = true :=
  ⟨by decide, by decide⟩

/-- C4: a call expression appends the call node and, exactly when the
callee is an unsafe function (so the created node is an `UnsafeCall`),
one shadow `UnsafeCall` node with a single `Controls` edge into the call
node; the reconciliation pass appends no `Controls` edge at all, so
scanner-materialized nodes receive no shadow. -/
theorem C4_theorem (fuel : Nat) (e : Entity) (parent : Nat) (mt : Bool) (st : St)
    (fname : String) (g : Graph) (nm : List (String × Nat)) (ec pa : List (String × String))
    (h : extract_call_name e = some fname) :
    ((process_call_expression fuel e parent mt st).g.nodes = st.g.nodes ++
      (call_node_of mt fname e ::
        (if is_unsafe_function fname then [shadow_node_of fname] else [])) ∧
     ∃ te, (process_call_expression fuel e parent mt st).g.edges = st.g.edges ++ te ∧
       te.filter (fun ed => ed.kind == EdgeType.Controls) =
         (if is_unsafe_function fname then
           [⟨st.g.nodes.length + 1, st.g.nodes.length, EdgeType.Controls⟩] else [])) ∧
    (∃ t, (fix_disconnected_calls g nm ec pa).edges = g.edges ++ t ∧
      ∀ ed ∈ t, ¬ ed.kind = EdgeType.Controls) := by
  obtain ⟨hm, hu, hp, hq, hn, te, hte, hfil, hcalls⟩ := pce_shape fuel e parent mt st fname h
  refine ⟨⟨hn, te, hte, hfil⟩, ?_⟩
  obtain ⟨t, ht, hk⟩ := fix_edgesK g nm ec pa
  refine ⟨t, ht, fun ed hed hc => ?_⟩
  have hin := hk ed hed
  rw [hc] at hin
  simp at hin

/-- C4 witness: the shadow shape instantiated on the unsafe call
`strcpy(...)` (`eC4`) and the no-`Controls` half on `gC2w`. -/
theorem C4_witness :
    ((process_call_expression 5 eC4 0 false emptySt).g.nodes = emptySt.g.nodes ++
      (call_node_of false "strcpy" eC4 ::
        (if is_unsafe_function "strcpy" then [shadow_node_of "strcpy"] else [])) ∧
     ∃ te, (process_call_expression 5 eC4 0 false emptySt).g.edges = emptySt.g.edges ++ te ∧
       te.filter (fun ed => ed.kind == EdgeType.Controls) =
         (if is_unsafe_function "strcpy" then
           [⟨emptySt.g.nodes.length + 1, emptySt.g.nodes.length, EdgeType.Controls⟩] else [])) ∧
    (∃ t, (fix_disconnected_calls gC2w nmC2w [] []).edges = gC2w.edges ++ t ∧
      ∀ ed ∈ t, ¬ ed.kind = EdgeType.Controls) :=
  C4_theorem 5 eC4 0 false emptySt "strcpy" gC2w nmC2w [] [] (by decide)

/-- C5: a pthread pair whose caller and handler resolve in the name map
and whose caller has a basic-block child is pthread-connected after
reconciliation (a `Call: pthread_create` node under a basic block of the
caller holds a `References` edge to the handler), and phase three is the
identity on any graph that is already so connected, so no second node is
created. -/
theorem C5_theorem (g : Graph) (nm : List (String × Nat)) (ec pa : List (String × String))
    (p : String × String) (ci hi : Nat) (hp : p ∈ pa)
    (hci : lookupS nm p.1 = some ci) (hhi : lookupS nm p.2 = some hi)
    (hbb : ∃ bb, bb ∈ bb_children g ci) :
    pthread_already_connected (fix_disconnected_calls g nm ec pa) ci hi = true ∧
    ∀ h : Graph, pthread_already_connected h ci hi = true → fix_pthread_step nm h p = h :=
  ⟨fix_pthread_connected g nm ec pa p ci hi hp hci hhi hbb,
   fun h hc => fix_pthread_step_id hci hhi hc⟩

/-- C5 witness: the pair `("main", "handler")` on `gC2`; running phase
three once more on the finished graph changes nothing. -/
theorem C5_witness :
    pthread_already_connected
      (fix_disconnected_calls gC2 nmC2 [] [("main", "handler")]) 0 2 = true ∧
    fix_pthread_step nmC2 (fix_disconnected_calls gC2 nmC2 [] [("main", "handler")])
        ("main", "handler") =
      fix_disconnected_calls gC2 nmC2 [] [("main", "handler")] := by
  have h := C5_theorem gC2 nmC2 [] [("main", "handler")] ("main", "handler") 0 2 (by decide)
    (by decide) (by decide) ⟨1, by decide⟩
  exact ⟨h.1, h.2 _ h.1⟩

/-- C7 (amended): graph construction never aborts on inputs whose named
variable declarations and named parameters all carry types; the analysis
and reconciliation passes then run to completion.  (Unrestricted
never-abortion is refuted by `C7_counterexample`: a named declaration
without a type panics in `get_type().unwrap()`.) -/
theorem C7_theorem (fuel : Nat) (root : Entity) (ec pa : List (String × String)) (mt : Bool)
    (h : wellTyped root) : (run_analyzer fuel root ec pa mt).isSome = true :=
  run_analyzer_isSome fuel root ec pa mt h

/-- C7 witness: the analyzer completes on the well-typed unit `tuC1`. -/
theorem C7_witness : (run_analyzer 10 tuC1 [] [] false).isSome = true :=
  C7_theorem 10 tuC1 [] [] false (wellTypedF_up (n := 6) (by decide) (by decide))

/-- C7 counterexample: on `tuC7` — a named variable declaration carrying
no type — the analysis pass aborts (the run returns `none`, the model of
the `get_type().unwrap()` panic). -/
theorem C7_counterexample : run_analyzer 10 tuC7 [] [] false = none := by decide

/-- C8: the code diverges from the claim — `tuC8` supplies no USR for
any declaration, yet the discovery pass registers the new function node
in `by_usr` under the Debug rendering "None", because
`format!("{:?}", entity.get_usr())` is never the empty string and the
`!usr.is_empty()` guard therefore always passes. -/
theorem C8_theorem :
    tuC8.children.all (fun c => c.usr == none) = true ∧
    (find_all_functions 3 tuC8 emptySt).usr_map = [("None", 0)] :=
  ⟨by decide, by decide⟩

/-- C9: every node appended by the reconciliation pass is a
`Call`/`UnsafeCall` node with `line = none`, `usr = none` and
`type_info = none`, whereas the AST-created call node carries the call
site's line number. -/
theorem C9_theorem (g : Graph) (nm : List (String × Nat)) (ec pa : List (String × String))
    (mt : Bool) (fname : String) (e : Entity) :
    (∃ t, (fix_disconnected_calls g nm ec pa).nodes = g.nodes ++ t ∧
      ∀ n ∈ t, (n.kind = NodeType.Call ∨ n.kind = NodeType.UnsafeCall) ∧
        n.line = none ∧ n.usr = none ∧ n.type_info = none) ∧
    (call_node_of mt fname e).line = get_line_number e :=
  ⟨fix_nodesP g nm ec pa, rfl⟩

/-- C10: an assignment whose left-hand side is not a declaration
reference resolving in the name map is a complete no-op: the state is
returned unchanged, so no `Assignment` node is created and the
right-hand side is never traversed. -/
theorem C10_theorem (fuel : Nat) (e lhs rhs : Entity) (parent : Nat) (st : St)
    (r : List Entity) (hd : e.displayName = some "=")
    (hch : e.children = lhs :: rhs :: r)
    (hnr : (if (lhs.kind == EntityKind.DeclRefExpr) = true then
        (match lhs.name with | some vn => lookupS st.node_map vn | none => none)
      else none) = none) :
    process_binary_operator (fuel+1) e parent st = some st := by
  simp only [process_binary_operator, hd, hch]
  simp only [beq_self_eq_true, if_true]
  rw [hnr]

/-- C10 witness: `5 = 6` (integer-literal left-hand side) processed on
the empty state returns it unchanged. -/
theorem C10_witness : process_binary_operator (2+1) eC10 0 emptySt = some emptySt :=
  C10_theorem 2 eC10 (eN .IntegerLiteral) (eN .IntegerLiteral) 0 emptySt []
    rfl rfl (by decide)

/-- C6: for a declaration `int *q = &x;` whose `x` resolves in the name
map, the initializer's address-of sweep adds a `Points` edge from `q` to
`x` and records `pointer_targets[q] = x`; a subsequent dereference `*q`
yields a `Dereference` node with a `Uses` edge to `q` and an `Accesses`
edge to `x`. -/
theorem C6_theorem (fuel : Nat) (st su : St) (xi qi parent di : Nat)
    (hlx : lookupS st.node_map "x" = some xi)
    (hlq : lookupS su.node_map "q" = some qi)
    (hpt : lookupN su.pointer_targets qi = some xi) :
    init_addr_children [xRef] qi st = ptIns (addEdge st qi xi EdgeType.Points) qi xi ∧
    deref_children (fuel+1) [qRef] di su =
      some (addEdge (addEdge su di qi EdgeType.Uses) di xi EdgeType.Accesses) ∧
    process_unary_operator (fuel+2) derefQ parent su =
      some (addEdge (addEdge (addEdge
        (addNode su ⟨"Dereference", NodeType.Dereference, none, none, none⟩).1
        parent su.g.nodes.length EdgeType.Contains)
        su.g.nodes.length qi EdgeType.Uses)
        su.g.nodes.length xi EdgeType.Accesses) := by
  refine ⟨?_, ?_, ?_⟩
  · simp [init_addr_children, xRef, eN, Entity.kind, Entity.name, hlx]
  · cases fuel <;> simp [deref_children, qRef, eN, Entity.kind, Entity.name, hlq, hpt]
  · cases fuel <;>
      simp [process_unary_operator, derefQ, qRef, eN, Entity.kind, Entity.name,
        Entity.displayName, Entity.children, Entity.loc, get_line_number, deref_children,
        addEdge_node_map, addNode_fst_node_map, addEdge_pointer_targets,
        addNode_fst_pointer_targets, addNode_snd, hlq, hpt]

/-- C6 witness: the pointer chain instantiated on concrete states where
`x` is node 0 and `q` is node 1 with recorded target 0. -/
theorem C6_witness :
    init_addr_children [xRef] 1 stC6x = ptIns (addEdge stC6x 1 0 EdgeType.Points) 1 0 ∧
    deref_children 1 [qRef] 3 stC6q =
      some (addEdge (addEdge stC6q 3 1 EdgeType.Uses) 3 0 EdgeType.Accesses) ∧
    process_unary_operator 2 derefQ 0 stC6q =
      some (addEdge (addEdge (addEdge
        (addNode stC6q ⟨"Dereference", NodeType.Dereference, none, none, none⟩).1
        0 stC6q.g.nodes.length EdgeType.Contains)
        stC6q.g.nodes.length 1 EdgeType.Uses)
        stC6q.g.nodes.length 0 EdgeType.Accesses) :=
  C6_theorem 0 stC6x stC6q 0 1 0 3 (by decide) (by decide) (by decide)
